import Mathlib

/-!
# Verification of the plugin lifecycle and dependency-resolution engine

This file is a shallow embedding, in Lean 4, of the core of the plugin
management layer found in the repository under verification:

* `src/@pm/core/src/utils/dependency.ts` — the depth-first topological
  sorter `sortPluginsByDependencies` with cycle detection and the
  strict/lenient missing-dependency policy;
* `src/@pm/core/src/plugin/plugin-manager.ts` — the `PluginManager`
  lifecycle engine (`register`, `activate`, `deactivate`);
* `src/@pm/core/src/hooks/create-hooks.ts` — the hook/event bus with
  per-handler fault isolation in `emit`.

Modelling conventions:

* A JavaScript object used as a registry (`Record<string, Plugin>`) is an
  insertion-ordered association list `List (String × Plugin)` with unique
  keys (`Object.entries` iterates in insertion order; new keys append).
* Mutation of a plugin record found in the registry is replacement of the
  value at its key (`updStatus`).  `meta` and `impl` are never mutated by
  the engine, so capturing them at the start of an operation is equivalent
  to re-reading them.
* Optional lifecycle callbacks (`setup`/`activate`/`deactivate`) are
  modelled as `Option Bool`: `none` means the callback is absent,
  `some true` a callback that returns normally, `some false` a callback
  that throws.  The engine observes callbacks only through presence and
  normal/abrupt completion, which is all the modelled operations inspect.
* `await` of a callback is synchronous completion (single logical thread,
  no interleaving is modelled).
* Thrown JavaScript errors are `Except` values; a `try`/`catch` that
  converts an exception into a `false` return keeps all state mutated
  before the throw, exactly as the source does.
* The unbounded recursion of `visitPlugin` and of `PluginManager.activate`
  is expressed with explicit fuel; theorems either supply provably
  sufficient fuel or hold for every fuel value.
* Hook emissions and callback invocations are recorded in an append-only
  trace so that temporal claims are statable.
-/

/-! ## Data model (src/@pm/core/src/types/plugin.ts) -/

/-- Plugin metadata (`PluginMeta`): declarative, author-supplied. Only the
fields the modelled operations read are kept. -/
structure PluginMeta where
  id : String
  name : String
  version : String
  dependencies : List String
  enabled : Option Bool
deriving Repr, DecidableEq

/-- Plugin implementation (`PluginImpl`): optional lifecycle callbacks.
`none` = absent; `some true` = returns normally; `some false` = throws. -/
structure PluginImpl where
  setup : Option Bool
  activate : Option Bool
  deactivate : Option Bool
deriving Repr, DecidableEq

/-- Mutable run-state of a plugin (`PluginStatus`), owned by the engine. -/
structure PluginStatus where
  loaded : Bool
  active : Bool
  installedAt : Nat
  activatedAt : Option Nat
deriving Repr, DecidableEq

/-- A registered plugin record (`Plugin`). -/
structure Plugin where
  meta : PluginMeta
  impl : PluginImpl
  status : PluginStatus
deriving Repr, DecidableEq

/-- The registry `Record<string, Plugin>`: an insertion-ordered association
list. JavaScript guarantees unique keys; theorems assume `RegKeysNodup`. -/
abbrev Registry := List (String × Plugin)

/-- Key lookup (`plugins[id]`): first (= only) match. -/
def lookupReg : Registry → String → Option Plugin
  | [], _ => none
  | (k, v) :: rest, id => if k = id then some v else lookupReg rest id

/-- Well-formedness of a JavaScript object: keys are unique. -/
def RegKeysNodup (plugins : Registry) : Prop :=
  (plugins.map Prod.fst).Nodup

/-! ## Dependency resolver (src/@pm/core/src/utils/dependency.ts) -/

/-- Errors thrown by `sortPluginsByDependencies`.  `fuel` is an artifact of
the fuel-based embedding of the unbounded recursion; theorems prove it is
never produced when the sorter is run with its actual fuel budget. -/
inductive SortErr where
  /-- `Circular dependency detected: ${id}` -/
  | circular (id : String)
  /-- `Missing dependency: ${depId} required by ${id}` -/
  | missing (dep : String) (requiredBy : String)
  /-- out of fuel (unreachable from `sortPluginsByDependencies`) -/
  | fuel
deriving Repr, DecidableEq

/-- The mutable state of the sort: the `visited` set and the `result`
array.  The `visiting` set is threaded as a read-only parameter pushed at
each recursive call, which is equivalent to the source's add/delete pair
because every successful call restores `visiting` and every throw discards
it. -/
structure SortSt where
  visited : List String
  result : List Plugin
deriving Repr, DecidableEq

/-- The `for (const depId of plugin.meta.dependencies)` loop inside
`visitPlugin`: look each dependency up; recurse on present ones (via the
`visit` continuation); throw on missing ones in strict mode, skip them
otherwise. -/
def visitDeps (plugins : Registry) (strict : Bool)
    (visit : String → Plugin → SortSt → Except SortErr SortSt)
    (requiredBy : String) : List String → SortSt → Except SortErr SortSt
  | [], st => .ok st
  | d :: ds, st =>
    match lookupReg plugins d with
    | some q =>
      match visit d q st with
      | .ok st' => visitDeps plugins strict visit requiredBy ds st'
      | .error e => .error e
    | none =>
      if strict then .error (.missing d requiredBy)
      else visitDeps plugins strict visit requiredBy ds st

/-- `visitPlugin(id, plugin)`: skip if visited; throw `circular` if on the
current DFS stack; otherwise push onto `visiting`, visit dependencies
first, then mark visited and append to the result. -/
def visitPlugin (plugins : Registry) (strict : Bool) :
    Nat → List String → String → Plugin → SortSt → Except SortErr SortSt
  | 0, _, _, _, _ => .error .fuel
  | fuel + 1, visiting, id, plugin, st =>
    if id ∈ st.visited then .ok st
    else if id ∈ visiting then .error (.circular id)
    else
      match visitDeps plugins strict
          (visitPlugin plugins strict fuel (id :: visiting)) id
          plugin.meta.dependencies st with
      | .ok st' => .ok ⟨id :: st'.visited, st'.result ++ [plugin]⟩
      | .error e => .error e

/-- The top-level `for (const [id, plugin] of Object.entries(plugins))`
loop of `sortPluginsByDependencies`. -/
def sortGo (plugins : Registry) (strict : Bool) (fuel : Nat) :
    List (String × Plugin) → SortSt → Except SortErr SortSt
  | [], st => .ok st
  | (id, plugin) :: rest, st =>
    if id ∈ st.visited then sortGo plugins strict fuel rest st
    else
      match visitPlugin plugins strict fuel [] id plugin st with
      | .ok st' => sortGo plugins strict fuel rest st'
      | .error e => .error e

/-- `sortPluginsByDependencies(plugins, strict)`: depth-first topological
sort of the registry.  The fuel budget `plugins.length + 1` is proved
sufficient (`.fuel` is never returned). -/
def sortPluginsByDependencies (plugins : Registry) (strict : Bool) :
    Except SortErr (List Plugin) :=
  match sortGo plugins strict (plugins.length + 1) plugins ⟨[], []⟩ with
  | .ok st => .ok st.result
  | .error e => .error e

/-! ### The declared dependency graph -/

/-- Edge of the declared dependency graph restricted to registered
plugins: `a` depends on `b` and both are present in the registry. -/
def DepEdge (plugins : Registry) (a b : String) : Prop :=
  ∃ pa pb, lookupReg plugins a = some pa ∧ lookupReg plugins b = some pb ∧
    b ∈ pa.meta.dependencies

/-- `id` lies on a dependency cycle among registered plugins. -/
def OnCycle (plugins : Registry) (id : String) : Prop :=
  Relation.TransGen (DepEdge plugins) id id

/-- The declared dependency graph among registered plugins is acyclic. -/
def AcyclicReg (plugins : Registry) : Prop :=
  ∀ id, ¬ OnCycle plugins id

/-! ### Invariants of the DFS -/

/-- The correctness invariant of the accumulated `result` array: it was
built by appending plugins whose registered dependencies were all already
in the array. -/
inductive DepSorted (plugins : Registry) : List Plugin → Prop
  | nil : DepSorted plugins []
  | snoc {res : List Plugin} {p : Plugin} :
      DepSorted plugins res →
      (∀ d ∈ p.meta.dependencies, ∀ q, lookupReg plugins d = some q → q ∈ res) →
      DepSorted plugins (res ++ [p])

/-- Invariant carried through the DFS state. -/
structure SortInv (plugins : Registry) (strict : Bool) (st : SortSt) : Prop where
  sorted : DepSorted plugins st.result
  visOk : ∀ id ∈ st.visited, ∃ q, lookupReg plugins id = some q ∧ q ∈ st.result
  missScan : strict = true → ∀ id ∈ st.visited, ∀ p, lookupReg plugins id = some p →
      ∀ d ∈ p.meta.dependencies, (lookupReg plugins d).isSome

/-- The `visiting` DFS stack is a dependency chain: each entry is
registered, and each entry was pushed as a declared dependency of the
entry below it. -/
def VisChain (plugins : Registry) : List String → Prop
  | [] => True
  | [a] => (lookupReg plugins a).isSome
  | a :: b :: rest =>
      (∃ pb, lookupReg plugins b = some pb ∧ a ∈ pb.meta.dependencies) ∧
      (lookupReg plugins a).isSome ∧ VisChain plugins (b :: rest)

/-- How `visitPlugin` is reached: either from the top-level loop (empty
stack) or as a declared dependency of the plugin on top of the stack. -/
def CallOk (plugins : Registry) (id : String) (visiting : List String) : Prop :=
  visiting = [] ∨ ∃ f t, visiting = f :: t ∧
    ∃ pf, lookupReg plugins f = some pf ∧ id ∈ pf.meta.dependencies

/-- What is true of any error produced by the sorter: circular errors name
an id on a real dependency cycle; missing errors are truthful and only
arise in strict mode; fuel exhaustion never happens. -/
def ErrOk (plugins : Registry) (strict : Bool) : SortErr → Prop
  | .circular c => OnCycle plugins c
  | .missing d r => lookupReg plugins d = none ∧ strict = true ∧
      ∃ q, lookupReg plugins r = some q ∧ d ∈ q.meta.dependencies
  | .fuel => False

/-! ### Helper lemmas about registry lookup -/

theorem lookupReg_mem {r : Registry} {id : String} {p : Plugin}
    (h : lookupReg r id = some p) : (id, p) ∈ r := by
  induction r with
  | nil => simp [lookupReg] at h
  | cons e rest ih =>
    obtain ⟨k, v⟩ := e
    by_cases hk : k = id
    · subst hk
      simp [lookupReg] at h
      simp [h]
    · simp [lookupReg, hk] at h
      exact List.mem_cons_of_mem _ (ih h)

theorem lookupReg_of_mem_nodup {r : Registry} {id : String} {p : Plugin}
    (hnd : RegKeysNodup r) (h : (id, p) ∈ r) : lookupReg r id = some p := by
  induction r with
  | nil => simp at h
  | cons e rest ih =>
    obtain ⟨k, v⟩ := e
    rcases List.mem_cons.mp h with heq | hmem
    · cases heq
      simp [lookupReg]
    · have hk : k ≠ id := by
        intro hk
        subst hk
        have : k ∈ rest.map Prod.fst := List.mem_map_of_mem Prod.fst hmem
        have hnd' := (List.nodup_cons.mp hnd).1
        exact hnd' this
      have hnd2 : RegKeysNodup rest := (List.nodup_cons.mp hnd).2
      simp [lookupReg, hk]
      exact ih hnd2 hmem

theorem lookupReg_isSome_mem {r : Registry} {id : String}
    (h : (lookupReg r id).isSome) : id ∈ r.map Prod.fst := by
  induction r with
  | nil => simp [lookupReg] at h
  | cons e rest ih =>
    obtain ⟨k, v⟩ := e
    by_cases hk : k = id
    · subst hk; simp
    · simp [lookupReg, hk] at h
      simpa using Or.inr (ih h)

/-! ### From the DFS stack to cycles -/

theorem visChain_cons_tail {plugins : Registry} {a : String} {t : List String}
    (h : VisChain plugins (a :: t)) : VisChain plugins t := by
  cases t with
  | nil => trivial
  | cons b rest => exact h.2.2

theorem visChain_reach {plugins : Registry} :
    ∀ (t : List String) (f : String), VisChain plugins (f :: t) →
    ∀ id ∈ f :: t, id = f ∨ Relation.TransGen (DepEdge plugins) id f := by
  intro t
  induction t with
  | nil =>
    intro f _ id hid
    simp at hid
    exact Or.inl hid
  | cons b rest ih =>
    intro f hchain id hid
    rcases List.mem_cons.mp hid with h | h
    · exact Or.inl h
    · obtain ⟨⟨pb, hpb, hfdep⟩, hfsome, hrest⟩ := hchain
      obtain ⟨pf, hpf⟩ := Option.isSome_iff_exists.mp hfsome
      have hedge : DepEdge plugins b f := ⟨pb, pf, hpb, hpf, hfdep⟩
      rcases ih b hrest id h with h' | h'
      · exact Or.inr (Relation.TransGen.single (h' ▸ hedge))
      · exact Or.inr (Relation.TransGen.tail h' hedge)

/-- If `visitPlugin` re-enters an id that is still on the DFS stack, that
id lies on a genuine dependency cycle. -/
theorem cycle_of_mem_visiting {plugins : Registry} {id : String} {p : Plugin}
    {visiting : List String}
    (hlk : lookupReg plugins id = some p)
    (hcall : CallOk plugins id visiting)
    (hchain : VisChain plugins visiting)
    (hmem : id ∈ visiting) : OnCycle plugins id := by
  rcases hcall with h | ⟨f, t, hft, pf, hpf, hdep⟩
  · subst h; simp at hmem
  · subst hft
    have hedge : DepEdge plugins f id := ⟨pf, p, hpf, hlk, hdep⟩
    rcases visChain_reach t f hchain id hmem with h | h
    · exact Relation.TransGen.single (h ▸ hedge)
    · exact Relation.TransGen.tail h hedge

/-! ### Order correctness from `DepSorted` -/

theorem depSorted_earlier {plugins : Registry} {res : List Plugin}
    (h : DepSorted plugins res) :
    ∀ l1 p l2, res = l1 ++ p :: l2 →
    ∀ d ∈ p.meta.dependencies, ∀ q, lookupReg plugins d = some q → q ∈ l1 := by
  induction h with
  | nil =>
    intro l1 p l2 heq
    exact absurd heq (by simp)
  | @snoc res0 p0 hres hdeps ih =>
    intro l1 p l2 heq d hd q hq
    rcases List.eq_nil_or_concat l2 with h2 | ⟨l2', x, h2⟩
    · subst h2
      obtain ⟨hres_eq, hp⟩ := List.append_inj' heq rfl
      simp only [List.cons.injEq, and_true] at hp
      subst hres_eq
      subst hp
      exact hdeps d hd q hq
    · subst h2
      have heq' : res0 ++ [p0] = (l1 ++ p :: l2') ++ [x] := by
        simpa [List.concat_eq_append] using heq
      obtain ⟨hres_eq, hx⟩ := List.append_inj' heq' rfl
      exact ih l1 p l2' hres_eq d hd q hq

/-! ### Specification of the DFS, by induction on fuel -/

/-- Abstract specification of a recursive visit continuation, as assumed
by the dependency loop. -/
def VisitSpec (plugins : Registry) (strict : Bool) (visiting : List String)
    (visit : String → Plugin → SortSt → Except SortErr SortSt) : Prop :=
  ∀ d q st, lookupReg plugins d = some q → CallOk plugins d visiting →
    SortInv plugins strict st →
    (∀ st', visit d q st = .ok st' →
      SortInv plugins strict st' ∧ st.visited ⊆ st'.visited ∧ d ∈ st'.visited ∧
      ∃ ext, st'.result = st.result ++ ext) ∧
    (∀ e, visit d q st = .error e → ErrOk plugins strict e)

theorem visitDeps_spec {plugins : Registry} {strict : Bool} {visiting : List String}
    {visit : String → Plugin → SortSt → Except SortErr SortSt}
    {reqBy : String} {preq : Plugin}
    (hreq : lookupReg plugins reqBy = some preq)
    (hvisiting : ∃ t, visiting = reqBy :: t)
    (hv : VisitSpec plugins strict visiting visit) :
    ∀ (ds : List String) (st : SortSt), (∀ d ∈ ds, d ∈ preq.meta.dependencies) →
    SortInv plugins strict st →
    (∀ st', visitDeps plugins strict visit reqBy ds st = .ok st' →
      SortInv plugins strict st' ∧ st.visited ⊆ st'.visited ∧
      (∃ ext, st'.result = st.result ++ ext) ∧
      (∀ d ∈ ds, (∀ q, lookupReg plugins d = some q → d ∈ st'.visited) ∧
        (strict = true → (lookupReg plugins d).isSome))) ∧
    (∀ e, visitDeps plugins strict visit reqBy ds st = .error e →
      ErrOk plugins strict e) := by
  intro ds
  induction ds with
  | nil =>
    intro st _ hinv
    constructor
    · intro st' h
      simp only [visitDeps] at h
      cases h
      exact ⟨hinv, fun x hx => hx, ⟨[], by simp⟩, by simp⟩
    · intro e h
      simp [visitDeps] at h
  | cons d ds ih =>
    intro st hds hinv
    have hd0 : d ∈ preq.meta.dependencies := hds d (by simp)
    have hds' : ∀ x ∈ ds, x ∈ preq.meta.dependencies :=
      fun x hx => hds x (by simp [hx])
    cases hlk : lookupReg plugins d with
    | none =>
      by_cases hstrict : strict = true
      · subst hstrict
        constructor
        · intro st' h
          simp [visitDeps, hlk] at h
        · intro e h
          simp only [visitDeps, hlk] at h
          simp at h
          cases h
          exact ⟨hlk, rfl, preq, hreq, hd0⟩
      · have hsf : strict = false := by
          cases strict
          · rfl
          · exact absurd rfl hstrict
        subst hsf
        obtain ⟨ihOk, ihErr⟩ := ih st hds' hinv
        constructor
        · intro st' h
          have h' : visitDeps plugins false visit reqBy ds st = .ok st' := by
            simpa [visitDeps, hlk] using h
          obtain ⟨hinv', hsub', hext', hper'⟩ := ihOk st' h'
          refine ⟨hinv', hsub', hext', ?_⟩
          intro x hx
          rcases List.mem_cons.mp hx with rfl | hx'
          · refine ⟨?_, ?_⟩
            · intro q hq
              rw [hlk] at hq
              cases hq
            · intro hc
              cases hc
          · exact hper' x hx'
        · intro e h
          have h' : visitDeps plugins false visit reqBy ds st = .error e := by
            simpa [visitDeps, hlk] using h
          exact ihErr e h'
    | some q =>
      obtain ⟨t, ht⟩ := hvisiting
      have hcall : CallOk plugins d visiting :=
        Or.inr ⟨reqBy, t, ht, preq, hreq, hd0⟩
      obtain ⟨hvOk, hvErr⟩ := hv d q st hlk hcall hinv
      cases hvst : visit d q st with
      | ok st1 =>
        obtain ⟨hinv1, hsub1, hdmem1, ext1, hres1⟩ := hvOk st1 hvst
        obtain ⟨ihOk, ihErr⟩ := ih st1 hds' hinv1
        constructor
        · intro st' h
          have h' : visitDeps plugins strict visit reqBy ds st1 = .ok st' := by
            simpa [visitDeps, hlk, hvst] using h
          obtain ⟨hinv', hsub', ⟨ext', hres'⟩, hper'⟩ := ihOk st' h'
          refine ⟨hinv', fun x hx => hsub' (hsub1 hx),
            ⟨ext1 ++ ext', by simp [hres', hres1]⟩, ?_⟩
          intro x hx
          rcases List.mem_cons.mp hx with rfl | hx'
          · exact ⟨fun q' _ => hsub' hdmem1, fun _ => by simp [hlk]⟩
          · exact hper' x hx'
        · intro e h
          have h' : visitDeps plugins strict visit reqBy ds st1 = .error e := by
            simpa [visitDeps, hlk, hvst] using h
          exact ihErr e h'
      | error e1 =>
        constructor
        · intro st' h
          simp [visitDeps, hlk, hvst] at h
        · intro e h
          have he : e1 = e := by
            simpa [visitDeps, hlk, hvst] using h
          exact he ▸ hvErr e1 hvst

theorem visitPlugin_spec {plugins : Registry} {strict : Bool} :
    ∀ (fuel : Nat) (visiting : List String) (id : String) (p : Plugin) (st : SortSt),
    lookupReg plugins id = some p →
    CallOk plugins id visiting →
    VisChain plugins visiting →
    visiting.Nodup →
    (∀ v ∈ visiting, v ∈ plugins.map Prod.fst) →
    plugins.length + 1 ≤ fuel + visiting.length →
    SortInv plugins strict st →
    (∀ st', visitPlugin plugins strict fuel visiting id p st = .ok st' →
      SortInv plugins strict st' ∧ st.visited ⊆ st'.visited ∧ id ∈ st'.visited ∧
      ∃ ext, st'.result = st.result ++ ext) ∧
    (∀ e, visitPlugin plugins strict fuel visiting id p st = .error e →
      ErrOk plugins strict e) := by
  intro fuel
  induction fuel with
  | zero =>
    intro visiting id p st hlk hcall hchain hnd hsubk hbound hinv
    exfalso
    have h1 : visiting.length ≤ (plugins.map Prod.fst).length :=
      (hnd.subperm hsubk).length_le
    simp only [List.length_map] at h1
    omega
  | succ fuel ih =>
    intro visiting id p st hlk hcall hchain hnd hsubk hbound hinv
    by_cases hvisited : id ∈ st.visited
    · constructor
      · intro st' h
        have hst : st = st' := by
          simpa [visitPlugin, hvisited] using h
        subst hst
        exact ⟨hinv, fun x hx => hx, hvisited, ⟨[], by simp⟩⟩
      · intro e h
        simp [visitPlugin, hvisited] at h
    · by_cases hmemv : id ∈ visiting
      · constructor
        · intro st' h
          simp [visitPlugin, hvisited, hmemv] at h
        · intro e h
          have he : SortErr.circular id = e := by
            simpa [visitPlugin, hvisited, hmemv] using h
          subst he
          exact cycle_of_mem_visiting hlk hcall hchain hmemv
      · -- main branch: push onto the stack and visit dependencies
        have hkey : id ∈ plugins.map Prod.fst :=
          lookupReg_isSome_mem (by simp [hlk])
        have hchain' : VisChain plugins (id :: visiting) := by
          cases hvv : visiting with
          | nil => simp [VisChain, hlk]
          | cons f t =>
            rcases hcall with hnil | ⟨f', t', hft, pf, hpf, hdep⟩
            · rw [hvv] at hnil
              cases hnil
            · rw [hvv] at hft
              obtain ⟨hf, ht⟩ := List.cons_eq_cons.mp hft
              subst hf
              subst ht
              rw [hvv] at hchain
              exact ⟨⟨pf, hpf, hdep⟩, by simp [hlk], hchain⟩
        have hnd' : (id :: visiting).Nodup := List.nodup_cons.mpr ⟨hmemv, hnd⟩
        have hsubk' : ∀ v ∈ id :: visiting, v ∈ plugins.map Prod.fst := by
          intro v hv
          rcases List.mem_cons.mp hv with rfl | hv'
          · exact hkey
          · exact hsubk v hv'
        have hbound' : plugins.length + 1 ≤ fuel + (id :: visiting).length := by
          simp only [List.length_cons]
          omega
        have hvs : VisitSpec plugins strict (id :: visiting)
            (visitPlugin plugins strict fuel (id :: visiting)) := by
          intro d q st0 hlkd hcalld hinv0
          exact ih (id :: visiting) d q st0 hlkd hcalld hchain' hnd' hsubk' hbound' hinv0
        obtain ⟨hdOk, hdErr⟩ :=
          visitDeps_spec hlk ⟨visiting, rfl⟩ hvs p.meta.dependencies st
            (fun x hx => hx) hinv
        cases hvd : visitDeps plugins strict
            (visitPlugin plugins strict fuel (id :: visiting)) id
            p.meta.dependencies st with
        | ok st1 =>
          obtain ⟨hinv1, hsub1, ⟨ext1, hres1⟩, hper⟩ := hdOk st1 hvd
          constructor
          · intro st' h
            have hst : (⟨id :: st1.visited, st1.result ++ [p]⟩ : SortSt) = st' := by
              simpa [visitPlugin, hvisited, hmemv, hvd] using h
            subst hst
            refine ⟨⟨?_, ?_, ?_⟩, ?_, by simp, ⟨ext1 ++ [p], by simp [hres1]⟩⟩
            · refine DepSorted.snoc hinv1.sorted ?_
              intro d hd q hq
              have hdm := (hper d hd).1 q hq
              obtain ⟨q', hq', hq'mem⟩ := hinv1.visOk d hdm
              rw [hq] at hq'
              cases hq'
              exact hq'mem
            · intro x hx
              rcases List.mem_cons.mp hx with rfl | hx'
              · exact ⟨p, hlk, by simp⟩
              · obtain ⟨q, hq, hqm⟩ := hinv1.visOk x hx'
                exact ⟨q, hq, by simp [hqm]⟩
            · intro hs x hx px hpx d hd
              rcases List.mem_cons.mp hx with rfl | hx'
              · rw [hlk] at hpx
                cases hpx
                exact (hper d hd).2 hs
              · exact hinv1.missScan hs x hx' px hpx d hd
            · intro x hx
              simp only [SortSt.mk.injEq]
              exact List.mem_cons_of_mem _ (hsub1 hx)
          · intro e h
            simp [visitPlugin, hvisited, hmemv, hvd] at h
        | error e1 =>
          constructor
          · intro st' h
            simp [visitPlugin, hvisited, hmemv, hvd] at h
          · intro e h
            have he : e1 = e := by
              simpa [visitPlugin, hvisited, hmemv, hvd] using h
            exact he ▸ hdErr e1 hvd

theorem sortGo_spec {plugins : Registry} {strict : Bool} {fuel : Nat}
    (hfuel : plugins.length + 1 ≤ fuel) :
    ∀ (entries : List (String × Plugin)) (st : SortSt),
    (∀ e ∈ entries, lookupReg plugins e.1 = some e.2) →
    SortInv plugins strict st →
    (∀ st', sortGo plugins strict fuel entries st = .ok st' →
      SortInv plugins strict st' ∧ st.visited ⊆ st'.visited ∧
      ∀ e ∈ entries, e.1 ∈ st'.visited) ∧
    (∀ err, sortGo plugins strict fuel entries st = .error err →
      ErrOk plugins strict err) := by
  intro entries
  induction entries with
  | nil =>
    intro st _ hinv
    constructor
    · intro st' h
      have hst : st = st' := by simpa [sortGo] using h
      subst hst
      exact ⟨hinv, fun x hx => hx, by simp⟩
    · intro err h
      simp [sortGo] at h
  | cons e rest ih =>
    intro st hlks hinv
    obtain ⟨id, p⟩ := e
    have hlk : lookupReg plugins id = some p := hlks (id, p) (by simp)
    have hlks' : ∀ e ∈ rest, lookupReg plugins e.1 = some e.2 :=
      fun e he => hlks e (by simp [he])
    by_cases hvisited : id ∈ st.visited
    · obtain ⟨ihOk, ihErr⟩ := ih st hlks' hinv
      constructor
      · intro st' h
        have h' : sortGo plugins strict fuel rest st = .ok st' := by
          simpa [sortGo, hvisited] using h
        obtain ⟨hinv', hsub', hall'⟩ := ihOk st' h'
        refine ⟨hinv', hsub', ?_⟩
        intro e he
        rcases List.mem_cons.mp he with rfl | he'
        · exact hsub' hvisited
        · exact hall' e he'
      · intro err h
        have h' : sortGo plugins strict fuel rest st = .error err := by
          simpa [sortGo, hvisited] using h
        exact ihErr err h'
    · obtain ⟨hvOk, hvErr⟩ :=
        visitPlugin_spec fuel [] id p st hlk (Or.inl rfl) trivial List.nodup_nil
          (by simp) (by simpa using hfuel) hinv
      cases hvp : visitPlugin plugins strict fuel [] id p st with
      | ok st1 =>
        obtain ⟨hinv1, hsub1, hid1, _⟩ := hvOk st1 hvp
        obtain ⟨ihOk, ihErr⟩ := ih st1 hlks' hinv1
        constructor
        · intro st' h
          have h' : sortGo plugins strict fuel rest st1 = .ok st' := by
            simpa [sortGo, hvisited, hvp] using h
          obtain ⟨hinv', hsub', hall'⟩ := ihOk st' h'
          refine ⟨hinv', fun x hx => hsub' (hsub1 hx), ?_⟩
          intro e he
          rcases List.mem_cons.mp he with rfl | he'
          · exact hsub' hid1
          · exact hall' e he'
        · intro err h
          have h' : sortGo plugins strict fuel rest st1 = .error err := by
            simpa [sortGo, hvisited, hvp] using h
          exact ihErr err h'
      | error e1 =>
        constructor
        · intro st' h
          simp [sortGo, hvisited, hvp] at h
        · intro err h
          have he : e1 = err := by
            simpa [sortGo, hvisited, hvp] using h
          exact he ▸ hvErr e1 hvp

/-- Everything true of a successful sort: the result is dependency-ordered
(`DepSorted`), complete (every registered plugin appears), and in strict
mode every declared dependency of every registered plugin is present. -/
theorem sort_ok_spec {plugins : Registry} {strict : Bool} {res : List Plugin}
    (hnd : RegKeysNodup plugins)
    (h : sortPluginsByDependencies plugins strict = .ok res) :
    DepSorted plugins res ∧
    (∀ e ∈ plugins, ∃ q, lookupReg plugins e.1 = some q ∧ q ∈ res) ∧
    (strict = true → ∀ e ∈ plugins, ∀ d ∈ e.2.meta.dependencies,
      (lookupReg plugins d).isSome) := by
  have hlks : ∀ e ∈ plugins, lookupReg plugins e.1 = some e.2 :=
    fun e he => lookupReg_of_mem_nodup hnd he
  have hinv0 : SortInv plugins strict ⟨[], []⟩ :=
    ⟨DepSorted.nil, by simp, by simp⟩
  obtain ⟨gOk, _⟩ :=
    sortGo_spec (le_refl (plugins.length + 1)) plugins ⟨[], []⟩ hlks hinv0
  unfold sortPluginsByDependencies at h
  cases hgo : sortGo plugins strict (plugins.length + 1) plugins ⟨[], []⟩ with
  | ok st =>
    rw [hgo] at h
    simp only [Except.ok.injEq] at h
    subst h
    obtain ⟨hinv, _, hall⟩ := gOk st hgo
    refine ⟨hinv.sorted, ?_, ?_⟩
    · intro e he
      obtain ⟨q, hq, hqm⟩ := hinv.visOk e.1 (hall e he)
      exact ⟨q, hq, hqm⟩
    · intro hs e he d hd
      have hm := hall e he
      exact hinv.missScan hs e.1 hm e.2 (hlks e he) d hd
  | error e1 =>
    rw [hgo] at h
    cases h

/-- Everything true of a failed sort: the error is truthful. -/
theorem sort_err_spec {plugins : Registry} {strict : Bool} {err : SortErr}
    (hnd : RegKeysNodup plugins)
    (h : sortPluginsByDependencies plugins strict = .error err) :
    ErrOk plugins strict err := by
  have hlks : ∀ e ∈ plugins, lookupReg plugins e.1 = some e.2 :=
    fun e he => lookupReg_of_mem_nodup hnd he
  have hinv0 : SortInv plugins strict ⟨[], []⟩ :=
    ⟨DepSorted.nil, by simp, by simp⟩
  obtain ⟨_, gErr⟩ :=
    sortGo_spec (le_refl (plugins.length + 1)) plugins ⟨[], []⟩ hlks hinv0
  unfold sortPluginsByDependencies at h
  cases hgo : sortGo plugins strict (plugins.length + 1) plugins ⟨[], []⟩ with
  | ok st =>
    rw [hgo] at h
    cases h
  | error e1 =>
    rw [hgo] at h
    simp only [Except.error.injEq] at h
    subst h
    exact gErr e1 hgo

/-! ### A successful sort implies acyclicity -/

theorem take_indexOf_decomp {α : Type} [DecidableEq α] :
    ∀ (l : List α) (v : α), v ∈ l →
    ∃ l2, l = l.take (l.indexOf v) ++ v :: l2 ∧ v ∉ l.take (l.indexOf v) := by
  intro l
  induction l with
  | nil => intro v hv; simp at hv
  | cons x xs ih =>
    intro v hv
    by_cases hx : x = v
    · subst hx
      refine ⟨xs, ?_, ?_⟩
      · simp [List.indexOf_cons_self]
      · simp [List.indexOf_cons_self]
    · have hv' : v ∈ xs := by
        rcases List.mem_cons.mp hv with h | h
        · exact absurd h.symm hx
        · exact h
      obtain ⟨l2, hdec, hnm⟩ := ih v hv'
      have hidx : (x :: xs).indexOf v = xs.indexOf v + 1 := by
        simp [List.indexOf_cons_ne _ hx]
      refine ⟨l2, ?_, ?_⟩
      · rw [hidx]
        simpa using hdec
      · rw [hidx]
        simp only [List.take_succ_cons, List.mem_cons]
        rintro (h | h)
        · exact hx h.symm
        · exact hnm h

theorem indexOf_lt_of_mem_take {α : Type} [DecidableEq α] :
    ∀ (l : List α) (n : Nat) (v : α), v ∈ l.take n → l.indexOf v < n := by
  intro l
  induction l with
  | nil => intro n v hv; simp at hv
  | cons x xs ih =>
    intro n v hv
    cases n with
    | zero => simp at hv
    | succ n =>
      simp only [List.take_succ_cons, List.mem_cons] at hv
      by_cases hx : x = v
      · subst hx
        simp [List.indexOf_cons_self]
      · rcases hv with h | h
        · exact absurd h.symm hx
        · have := ih n v h
          simp [List.indexOf_cons_ne _ hx]
          omega

/-- One dependency edge strictly decreases the first-occurrence index in a
`DepSorted` result that contains every registered plugin. -/
theorem depSorted_edge_lt {plugins : Registry} {res : List Plugin}
    (hs : DepSorted plugins res) {a b : String} {va vb : Plugin}
    (hab : DepEdge plugins a b)
    (hva : lookupReg plugins a = some va) (hvb : lookupReg plugins b = some vb)
    (hmem : va ∈ res) : vb ∈ res ∧ res.indexOf vb < res.indexOf va := by
  obtain ⟨pa, pb, hpa, hpb, hdep⟩ := hab
  rw [hva] at hpa
  cases hpa
  rw [hvb] at hpb
  cases hpb
  obtain ⟨l2, hdec, _⟩ := take_indexOf_decomp res va hmem
  have hpre := depSorted_earlier hs (res.take (res.indexOf va)) va l2 hdec
    b hdep vb hvb
  constructor
  · rw [hdec]
    exact List.mem_append.mpr (Or.inl hpre)
  · exact indexOf_lt_of_mem_take res (res.indexOf va) vb hpre

/-- Both endpoints of a dependency path are registered. -/
theorem transGen_lookup {plugins : Registry} {a b : String}
    (h : Relation.TransGen (DepEdge plugins) a b) :
    (∃ pa, lookupReg plugins a = some pa) ∧ ∃ pb, lookupReg plugins b = some pb := by
  induction h with
  | single hab =>
    obtain ⟨pa, pb, hpa, hpb, _⟩ := hab
    exact ⟨⟨pa, hpa⟩, ⟨pb, hpb⟩⟩
  | tail _ hbc ih =>
    obtain ⟨pb, pc, hpb, hpc, _⟩ := hbc
    exact ⟨ih.1, ⟨pc, hpc⟩⟩

theorem depSorted_trans_lt {plugins : Registry} {res : List Plugin}
    (hs : DepSorted plugins res)
    (hcomp : ∀ id q, lookupReg plugins id = some q → q ∈ res) :
    ∀ a b, Relation.TransGen (DepEdge plugins) a b →
    ∀ va vb, lookupReg plugins a = some va → lookupReg plugins b = some vb →
    res.indexOf vb < res.indexOf va := by
  intro a b h
  induction h with
  | single hab =>
    intro va vb hva hvb
    exact (depSorted_edge_lt hs hab hva hvb (hcomp a va hva)).2
  | tail hab hbc ih =>
    intro va vc hva hvc
    obtain ⟨pb, pc, hpb, hpc, _⟩ := id hbc
    have h1 := ih va pb hva hpb
    have h2 := (depSorted_edge_lt hs hbc hpb hvc (hcomp _ pb hpb)).2
    omega

/-- If the sorter returns a result, the declared dependency graph among
registered plugins is acyclic. -/
theorem sort_ok_acyclic {plugins : Registry} {strict : Bool} {res : List Plugin}
    (hnd : RegKeysNodup plugins)
    (h : sortPluginsByDependencies plugins strict = .ok res) :
    AcyclicReg plugins := by
  obtain ⟨hsorted, hcompl, _⟩ := sort_ok_spec hnd h
  intro x hx
  obtain ⟨⟨px, hpx⟩, _⟩ := transGen_lookup hx
  have hcomp : ∀ id q, lookupReg plugins id = some q → q ∈ res := by
    intro id q hq
    obtain ⟨q', hq', hq'm⟩ := hcompl (id, q) (lookupReg_mem hq)
    simp only at hq'
    rw [hq] at hq'
    cases hq'
    exact hq'm
  have := depSorted_trans_lt hsorted hcomp x x hx px px hpx hpx
  omega

/-! ## Claim theorems about the dependency sorter -/

/-- Claim C3: for every registry whose declared dependency graph is
acyclic, the sequence returned by `sortPluginsByDependencies` never places
a plugin before any of its dependencies that are present in the registry:
whenever the output decomposes as `l1 ++ p :: l2` and `d` is a dependency
of `p` registered as plugin `q`, then `q` already occurs in the earlier
part `l1`. -/
theorem sort_acyclic_respects_dependencies {plugins : Registry} {strict : Bool}
    {res : List Plugin}
    (hnd : RegKeysNodup plugins) (hacyc : AcyclicReg plugins)
    (hok : sortPluginsByDependencies plugins strict = .ok res) :
    ∀ l1 p l2, res = l1 ++ p :: l2 →
    ∀ d ∈ p.meta.dependencies, ∀ q, lookupReg plugins d = some q → q ∈ l1 :=
  depSorted_earlier (sort_ok_spec hnd hok).1

/-- A minimal plugin record used in concrete witnesses. -/
def samplePlugin (id : String) (deps : List String) : Plugin :=
  { meta := { id := id, name := id, version := "1.0.0",
              dependencies := deps, enabled := none },
    impl := { setup := none, activate := none, deactivate := none },
    status := { loaded := false, active := false,
                installedAt := 0, activatedAt := none } }

/-- `api` depends on `db`: an acyclic two-plugin registry. -/
def regChain : Registry :=
  [("db", samplePlugin "db" []), ("api", samplePlugin "api" ["db"])]

/-- Witness for claim C3 at the concrete registry `regChain`. -/
theorem sort_acyclic_respects_dependencies_witness :
    RegKeysNodup regChain ∧ AcyclicReg regChain ∧
    samplePlugin "db" [] ∈ [samplePlugin "db" []] := by
  have hnd : RegKeysNodup regChain := by
    unfold RegKeysNodup
    decide
  have hok : sortPluginsByDependencies regChain false =
      .ok [samplePlugin "db" [], samplePlugin "api" ["db"]] := rfl
  have hacyc := sort_ok_acyclic hnd hok
  refine ⟨hnd, hacyc, ?_⟩
  exact sort_acyclic_respects_dependencies hnd hacyc hok
    [samplePlugin "db" []] (samplePlugin "api" ["db"]) [] rfl
    "db" (by decide) (samplePlugin "db" []) rfl

/-- `b` and `c` depend on each other: a cyclic registry. -/
def regCyc : Registry :=
  [("b", samplePlugin "b" ["c"]), ("c", samplePlugin "c" ["b"])]

/-- A cyclic registry whose first entry also declares an absent
dependency, so that in strict mode the missing-dependency throw preempts
cycle detection. -/
def regCycMiss : Registry :=
  [("a", samplePlugin "a" ["ghost"]),
   ("b", samplePlugin "b" ["c"]), ("c", samplePlugin "c" ["b"])]

/-- Claim C4 (amended): for every registry containing a dependency cycle
among registered plugins, `sortPluginsByDependencies` never returns a
sorted result, for both strict flags; every circular-dependency error it
throws identifies a plugin id on a genuine cycle; and with `strict = false`
the error is always a circular-dependency error.  (With `strict = true` a
missing-dependency error elsewhere in the registry may be thrown instead —
see the counterexample.) -/
theorem sort_cyclic_always_fails {plugins : Registry}
    (hnd : RegKeysNodup plugins) (hcyc : ∃ id, OnCycle plugins id) :
    (∀ strict, ∃ e, sortPluginsByDependencies plugins strict = .error e) ∧
    (∀ strict c, sortPluginsByDependencies plugins strict = .error (.circular c) →
      OnCycle plugins c) ∧
    (∀ e, sortPluginsByDependencies plugins false = .error e →
      ∃ c, e = .circular c ∧ OnCycle plugins c) := by
  refine ⟨?_, ?_, ?_⟩
  · intro strict
    cases hres : sortPluginsByDependencies plugins strict with
    | ok res =>
      obtain ⟨id, hid⟩ := hcyc
      exact absurd hid (sort_ok_acyclic hnd hres id)
    | error e => exact ⟨e, rfl⟩
  · intro strict c h
    exact sort_err_spec hnd h
  · intro e h
    have he := sort_err_spec hnd h
    cases e with
    | circular c => exact ⟨c, rfl, he⟩
    | missing d r =>
      obtain ⟨_, hst, _⟩ := he
      cases hst
    | fuel => cases he

/-- Witness for claim C4 at the concrete cyclic registry `regCyc`. -/
theorem sort_cyclic_always_fails_witness :
    (∀ strict, ∃ e, sortPluginsByDependencies regCyc strict = .error e) ∧
    (∀ strict c, sortPluginsByDependencies regCyc strict = .error (.circular c) →
      OnCycle regCyc c) ∧
    (∀ e, sortPluginsByDependencies regCyc false = .error e →
      ∃ c, e = .circular c ∧ OnCycle regCyc c) := by
  have hnd : RegKeysNodup regCyc := by
    unfold RegKeysNodup
    decide
  have hbc : DepEdge regCyc "b" "c" :=
    ⟨samplePlugin "b" ["c"], samplePlugin "c" ["b"], rfl, rfl, by decide⟩
  have hcb : DepEdge regCyc "c" "b" :=
    ⟨samplePlugin "c" ["b"], samplePlugin "b" ["c"], rfl, rfl, by decide⟩
  have hcyc : ∃ id, OnCycle regCyc id :=
    ⟨"b", Relation.TransGen.tail (Relation.TransGen.single hbc) hcb⟩
  exact sort_cyclic_always_fails hnd hcyc

/-- Counterexample to claim C4 as stated: `regCycMiss` contains a cycle
(`b ↔ c`), yet with `strict = true` the sorter throws the
missing-dependency error for `a`'s absent dependency `ghost`, not a
circular-dependency error. -/
theorem sort_cyclic_always_fails_counterexample :
    OnCycle regCycMiss "b" ∧
    sortPluginsByDependencies regCycMiss true = .error (.missing "ghost" "a") := by
  have hbc : DepEdge regCycMiss "b" "c" :=
    ⟨samplePlugin "b" ["c"], samplePlugin "c" ["b"], rfl, rfl, by decide⟩
  have hcb : DepEdge regCycMiss "c" "b" :=
    ⟨samplePlugin "c" ["b"], samplePlugin "b" ["c"], rfl, rfl, by decide⟩
  exact ⟨Relation.TransGen.tail (Relation.TransGen.single hbc) hcb, rfl⟩

/-- Claim C5 (amended): in a registry whose dependency graph among
registered plugins is acyclic, if some registered plugin declares a
dependency absent from the registry, then with `strict = true` the sort
fails with a missing-dependency error naming an absent dependency and the
plugin requiring it, while with `strict = false` the sort succeeds and the
dependent plugin still appears in the sorted output.  (Without the
acyclicity assumption a circular-dependency error can preempt both
behaviours — see the counterexample.) -/
theorem sort_missing_dependency_policy {plugins : Registry} {pid : String}
    {p : Plugin} {d : String}
    (hnd : RegKeysNodup plugins) (hacyc : AcyclicReg plugins)
    (hmem : (pid, p) ∈ plugins) (hd : d ∈ p.meta.dependencies)
    (hmiss : lookupReg plugins d = none) :
    (∃ d' req q, sortPluginsByDependencies plugins true = .error (.missing d' req) ∧
      lookupReg plugins d' = none ∧ lookupReg plugins req = some q ∧
      d' ∈ q.meta.dependencies) ∧
    (∃ res, sortPluginsByDependencies plugins false = .ok res ∧
      ∃ q, lookupReg plugins pid = some q ∧ q ∈ res) := by
  constructor
  · cases hres : sortPluginsByDependencies plugins true with
    | ok res =>
      exfalso
      obtain ⟨_, _, hscan⟩ := sort_ok_spec hnd hres
      have hsome := hscan rfl (pid, p) hmem d hd
      rw [hmiss] at hsome
      cases hsome
    | error e =>
      have he := sort_err_spec hnd hres
      cases e with
      | circular c => exact absurd he (hacyc c)
      | missing d' r =>
        obtain ⟨h1, _, q, hq, hdq⟩ := he
        exact ⟨d', r, q, rfl, h1, hq, hdq⟩
      | fuel => cases he
  · cases hres : sortPluginsByDependencies plugins false with
    | ok res =>
      obtain ⟨_, hcompl, _⟩ := sort_ok_spec hnd hres
      obtain ⟨q, hq, hqm⟩ := hcompl (pid, p) hmem
      exact ⟨res, rfl, q, hq, hqm⟩
    | error e =>
      exfalso
      have he := sort_err_spec hnd hres
      cases e with
      | circular c => exact absurd he (hacyc c)
      | missing d' r =>
        obtain ⟨_, hst, _⟩ := he
        cases hst
      | fuel => cases he

/-- `a` depends on the absent id `ghost`. -/
def regGhost : Registry := [("a", samplePlugin "a" ["ghost"])]

/-- Witness for claim C5 at the concrete registry `regGhost`. -/
theorem sort_missing_dependency_policy_witness :
    (∃ d' req q, sortPluginsByDependencies regGhost true = .error (.missing d' req) ∧
      lookupReg regGhost d' = none ∧ lookupReg regGhost req = some q ∧
      d' ∈ q.meta.dependencies) ∧
    (∃ res, sortPluginsByDependencies regGhost false = .ok res ∧
      ∃ q, lookupReg regGhost "a" = some q ∧ q ∈ res) := by
  have hnd : RegKeysNodup regGhost := by
    unfold RegKeysNodup
    decide
  have hok : sortPluginsByDependencies regGhost false =
      .ok [samplePlugin "a" ["ghost"]] := rfl
  have hacyc := sort_ok_acyclic hnd hok
  exact @sort_missing_dependency_policy regGhost "a" (samplePlugin "a" ["ghost"])
    "ghost" hnd hacyc (by decide) (by decide) rfl

/-- A registry with both a cycle (`c ↔ d`, visited first) and a plugin
`a` declaring the absent dependency `ghost`. -/
def regGhostCyc : Registry :=
  [("c", samplePlugin "c" ["d"]), ("d", samplePlugin "d" ["c"]),
   ("a", samplePlugin "a" ["ghost"])]

/-- Counterexample to claim C5 as stated: `regGhostCyc` contains a plugin
declaring an absent dependency, yet with `strict = true` the sorter throws
a circular-dependency error (not a missing-dependency error), and with
`strict = false` it throws as well, so the dependent plugin appears in no
sorted output. -/
theorem sort_missing_dependency_policy_counterexample :
    ("a", samplePlugin "a" ["ghost"]) ∈ regGhostCyc ∧
    "ghost" ∈ (samplePlugin "a" ["ghost"]).meta.dependencies ∧
    lookupReg regGhostCyc "ghost" = none ∧
    sortPluginsByDependencies regGhostCyc true = .error (.circular "c") ∧
    sortPluginsByDependencies regGhostCyc false = .error (.circular "c") :=
  ⟨by decide, by decide, rfl, rfl, rfl⟩

/-! ## Hook/event bus (src/@pm/core/src/hooks/create-hooks.ts) -/

/-- A subscribed handler, abstracted by its observable behaviour: `tag`
identifies the handler (its subscription position suffices), `throws`
tells whether its invocation throws. -/
structure HookHandler where
  tag : Nat
  throws : Bool
deriving Repr, DecidableEq

/-- Invoking a handler: `(handler as AnyFunction)(...args)` either returns
normally or throws. -/
def runHandler (h : HookHandler) : Except String Unit :=
  if h.throws then .error "handler threw" else .ok ()

/-- The `for (const handler of handlers[event])` loop of `emit`: every
invocation is wrapped in `try { ... } catch (error) { console.error(...) }`.
The first component collects the handlers invoked, in order; the second
collects the handlers whose error was caught and logged.  The return type
carries no exception: `emit` cannot propagate a handler's throw. -/
def emitHandlers : List HookHandler → List Nat × List Nat
  | [] => ([], [])
  | h :: hs =>
    let rest := emitHandlers hs
    match runHandler h with
    | .ok _ => (h.tag :: rest.1, rest.2)
    | .error _ => (h.tag :: rest.1, h.tag :: rest.2)

/-- Per-event handler store of `createPluginHooks` (subscription order). -/
abbrev HookState := List (String × List HookHandler)

/-- Handler list lookup (`handlers[event]`). -/
def lookupHandlers : HookState → String → Option (List HookHandler)
  | [], _ => none
  | (k, v) :: rest, ev => if k = ev then some v else lookupHandlers rest ev

/-- `emit(event, ...args)`: if the event has no handler array, return;
otherwise invoke every registered handler in subscription order. -/
def emit (st : HookState) (event : String) : List Nat × List Nat :=
  match lookupHandlers st event with
  | none => ([], [])
  | some hs => emitHandlers hs

/-- Claim C8: `emit` invokes every currently-registered handler for the
event, in subscription order, even when earlier handlers throw; the thrown
errors are caught and logged (exactly the throwing handlers get logged)
and never propagate to the caller (the result type of `emit` carries no
exception). -/
theorem emit_fault_isolation :
    ∀ hs : List HookHandler,
    emitHandlers hs = (hs.map HookHandler.tag,
      (hs.filter (fun h => h.throws)).map HookHandler.tag) := by
  intro hs
  induction hs with
  | nil => rfl
  | cons h hs ih =>
    cases hthrows : h.throws with
    | false =>
      simp [emitHandlers, runHandler, hthrows, ih]
    | true =>
      simp [emitHandlers, runHandler, hthrows, ih]

/-! ## Plugin lifecycle engine (src/@pm/core/src/plugin/plugin-manager.ts) -/

/-- Events recorded in the manager's observable trace: hook emissions and
plugin-callback invocations, in program order. -/
inductive MEv where
  | beforePluginActivate (id : String)
  | afterPluginActivate (id : String)
  | beforePluginSetup (id : String)
  | afterPluginSetup (id : String)
  | beforePluginDeactivate (id : String)
  | afterPluginDeactivate (id : String)
  | setupCalled (id : String)
  | activateImplCalled (id : String)
  | deactivateImplCalled (id : String)
deriving Repr, DecidableEq

/-- `PluginManagerOptions` (with the constructor's defaults applied). -/
structure MOptions where
  autoActivate : Bool
  resolveDependencies : Bool
  strictDependencies : Bool
deriving Repr, DecidableEq

/-- The manager's state: the reactive `plugins` registry, whether `init`
has created the plugin context, the `loading`/`error` refs, the event
trace, and a clock supplying `new Date()` timestamps. -/
structure MState where
  plugins : Registry
  contextInit : Bool
  loading : Bool
  error : Option String
  trace : List MEv
  now : Nat
deriving Repr, DecidableEq

/-- Emit a hook event (append to the trace). -/
def emitEv (s : MState) (e : MEv) : MState :=
  {s with trace := s.trace ++ [e]}

/-- In-place mutation of the plugin object stored at a key:
`plugin.status.<field> = v`. -/
def updStatus : Registry → String → (PluginStatus → PluginStatus) → Registry
  | [], _, _ => []
  | (k, v) :: rest, id, f =>
    if k = id then (k, {v with status := f v.status}) :: rest
    else (k, v) :: updStatus rest id f

namespace PluginManager

/-- `findPluginDependents(pluginId)`: all registered plugins (active or
not) whose declared dependencies include `pluginId`. -/
def findPluginDependents (reg : Registry) (pluginId : String) : List Plugin :=
  (reg.map Prod.snd).filter (fun p => p.meta.dependencies.contains pluginId)

/-- The setup step of `activate`: `if (!plugin.status.loaded &&
plugin.impl.setup) { beforePluginSetup; await setup(context);
status.loaded = true; afterPluginSetup }`.  Returns `false` when the setup
callback throws (the exception is caught by `activate`'s `try`). -/
def setupPhase (id : String) (p : Plugin) (s : MState) : Bool × MState :=
  match p.status.loaded, p.impl.setup with
  | false, some k =>
    let sA := emitEv s (.beforePluginSetup id)
    let sB := emitEv sA (.setupCalled id)
    if k then
      let sC := {sB with
        plugins := updStatus sB.plugins id (fun st => {st with loaded := true})}
      (true, emitEv sC (.afterPluginSetup id))
    else (false, sB)
  | _, _ => (true, s)

/-- The tail of `activate` after dependency resolution: set
`status.active = true`, stamp `activatedAt`, emit `afterPluginActivate`,
return `true`. -/
def finishActivate (id : String) (s : MState) : Bool × MState :=
  let s' := {s with
    plugins := updStatus s.plugins id
      (fun st => {st with active := true, activatedAt := some s.now}),
    now := s.now + 1}
  (true, emitEv s' (.afterPluginActivate id))

/-- `if (plugin.impl.activate) { await plugin.impl.activate() }` followed
by the activation tail; a throwing callback makes `activate` return
`false`. -/
def implActivatePhase (id : String) (p : Plugin) (s : MState) : Bool × MState :=
  match p.impl.activate with
  | some k =>
    let sD := emitEv s (.activateImplCalled id)
    if k then finishActivate id sD else (false, sD)
  | none => finishActivate id s

/-- The dependency loop of `activate`: for each declared dependency, look
it up in the current registry; missing in strict mode throws (caught as
overall failure), missing otherwise is skipped; present-but-inactive ones
are recursively activated — and the recursive result is discarded, as in
the source (`await this.activate(depId)` with no use of its value). -/
def activateDeps (strict : Bool) (recurse : String → MState → Bool × MState) :
    List String → MState → Bool × MState
  | [], s => (true, s)
  | d :: ds, s =>
    match lookupReg s.plugins d with
    | none =>
      if strict then (false, s)
      else activateDeps strict recurse ds s
    | some q =>
      if q.status.active then activateDeps strict recurse ds s
      else
        let r := recurse d s
        activateDeps strict recurse ds r.2

/-- `PluginManager.activate(pluginId)`.  Fuel bounds the recursion depth
through dependency chains; all claim theorems either hold for every fuel
or are evaluated at a sufficient concrete fuel. -/
def activate (opts : MOptions) : Nat → String → MState → Bool × MState
  | 0, _, s => (false, s)
  | fuel + 1, id, s =>
    match lookupReg s.plugins id with
    | none => (false, s)
    | some p =>
      if p.status.active then (true, s)
      else if s.contextInit = false then (false, s)
      else
        let s1 := emitEv s (.beforePluginActivate id)
        let su := setupPhase id p s1
        if su.1 = false then (false, su.2)
        else
          let dp :=
            if opts.resolveDependencies ∧ p.meta.dependencies ≠ [] then
              activateDeps opts.strictDependencies (activate opts fuel)
                p.meta.dependencies su.2
            else (true, su.2)
          if dp.1 = false then (false, dp.2)
          else implActivatePhase id p dp.2

/-- The tail of `deactivate`: set `status.active = false`, emit
`afterPluginDeactivate`, return `true`. -/
def finishDeactivate (id : String) (s : MState) : Bool × MState :=
  let s' := {s with
    plugins := updStatus s.plugins id (fun st => {st with active := false})}
  (true, emitEv s' (.afterPluginDeactivate id))

/-- `PluginManager.deactivate(pluginId)`.  Note the order: the
`beforePluginDeactivate` hook is emitted before the strict-mode dependents
check, whose throw is caught and surfaces as a `false` return with no
state mutated. -/
def deactivate (opts : MOptions) (id : String) (s : MState) : Bool × MState :=
  match lookupReg s.plugins id with
  | none => (false, s)
  | some p =>
    if p.status.active = false then (true, s)
    else
      let s1 := emitEv s (.beforePluginDeactivate id)
      if opts.strictDependencies ∧ findPluginDependents s1.plugins id ≠ [] then
        (false, s1)
      else
        match p.impl.deactivate with
        | some k =>
          let s2 := emitEv s1 (.deactivateImplCalled id)
          if k then finishDeactivate id s2 else (false, s2)
        | none => finishDeactivate id s1

/-- The fresh record `register` stores:
`{impl, meta, status: {active:false, installedAt:new Date(), loaded:false}}`. -/
def registerRecord (meta : PluginMeta) (impl : PluginImpl) (n : Nat) : Plugin :=
  { meta := meta, impl := impl,
    status := { loaded := false, active := false,
                installedAt := n, activatedAt := none } }

/-- `PluginManager.register(meta, impl)`: toggle `loading`, clear
`error`; an already-present id returns the existing record unchanged; a
new id appends a fresh record with `loaded:false, active:false,
installedAt:now` and, when `autoActivate` is on and the plugin is not
disabled, immediately activates it.  The returned record is the registry
entry (the source returns the same mutable object it stored). -/

def register (opts : MOptions) (fuel : Nat) (meta : PluginMeta)
    (impl : PluginImpl) (s : MState) : Option Plugin × MState :=
  let s0 := {s with loading := true, error := none}
  match lookupReg s0.plugins meta.id with
  | some existing => (some existing, {s0 with loading := false})
  | none =>
    let newP : Plugin := registerRecord meta impl s0.now
    let s1 := {s0 with plugins := s0.plugins ++ [(meta.id, newP)],
                       now := s0.now + 1}
    if opts.autoActivate ∧ meta.enabled ≠ some false then
      let s2 := (activate opts fuel meta.id s1).2
      (lookupReg s2.plugins meta.id, {s2 with loading := false})
    else (some newP, {s1 with loading := false})

/-- One public lifecycle operation. -/
inductive MOp where
  | reg (meta : PluginMeta) (impl : PluginImpl)
  | act (id : String)
  | deact (id : String)

/-- Run one operation, keeping only the state. -/
def runOp (opts : MOptions) (fuel : Nat) : MOp → MState → MState
  | .reg m i, s => (register opts fuel m i s).2
  | .act id, s => (activate opts fuel id s).2
  | .deact id, s => (deactivate opts id s).2

/-- Run a sequence of register/activate/deactivate operations. -/
def runOps (opts : MOptions) (fuel : Nat) (ops : List MOp) (s : MState) : MState :=
  ops.foldl (fun t op => runOp opts fuel op t) s

end PluginManager

/-! ### Helper lemmas about registry mutation -/

theorem lookupReg_updStatus_self (reg : Registry) (id : String)
    (f : PluginStatus → PluginStatus) :
    lookupReg (updStatus reg id f) id =
      (lookupReg reg id).map (fun p => {p with status := f p.status}) := by
  induction reg with
  | nil => rfl
  | cons e rest ih =>
    obtain ⟨k, v⟩ := e
    by_cases hk : k = id
    · subst hk
      simp [updStatus, lookupReg]
    · simp [updStatus, lookupReg, hk, ih]

theorem lookupReg_updStatus_other (reg : Registry) (id x : String)
    (f : PluginStatus → PluginStatus) (hx : x ≠ id) :
    lookupReg (updStatus reg id f) x = lookupReg reg x := by
  induction reg with
  | nil => rfl
  | cons e rest ih =>
    obtain ⟨k, v⟩ := e
    by_cases hk : k = id
    · subst hk
      have hkx : k ≠ x := fun h => hx h.symm
      simp [updStatus, lookupReg, hkx]
    · by_cases hkx : k = x
      · subst hkx
        simp [updStatus, lookupReg, hk]
      · simp [updStatus, lookupReg, hk, hkx, ih]

theorem lookupReg_append_new {l : Registry} {id : String} {v : Plugin}
    (h : lookupReg l id = none) : lookupReg (l ++ [(id, v)]) id = some v := by
  induction l with
  | nil => simp [lookupReg]
  | cons e rest ih =>
    obtain ⟨k, w⟩ := e
    by_cases hk : k = id
    · subst hk
      simp [lookupReg] at h
    · simp [lookupReg, hk] at h ⊢
      exact ih h

/-- What one engine-internal registry mutation step guarantees: the key
set is unchanged, and every record keeps its `meta` and `impl` while
`loaded` can only go from `false` to `true`. -/
def RegStep (r r' : Registry) : Prop :=
  (∀ x, (lookupReg r x).isSome ↔ (lookupReg r' x).isSome) ∧
  (∀ x p', lookupReg r' x = some p' → ∃ p0, lookupReg r x = some p0 ∧
    p'.meta = p0.meta ∧ p'.impl = p0.impl ∧
    (p0.status.loaded = true → p'.status.loaded = true))

theorem regStep_refl (r : Registry) : RegStep r r :=
  ⟨fun _ => Iff.rfl, fun _ p' h => ⟨p', h, rfl, rfl, id⟩⟩

theorem regStep_trans {r1 r2 r3 : Registry}
    (h12 : RegStep r1 r2) (h23 : RegStep r2 r3) : RegStep r1 r3 := by
  refine ⟨fun x => (h12.1 x).trans (h23.1 x), ?_⟩
  intro x p3 h3
  obtain ⟨p2, h2, hm23, hi23, hl23⟩ := h23.2 x p3 h3
  obtain ⟨p1, h1, hm12, hi12, hl12⟩ := h12.2 x p2 h2
  exact ⟨p1, h1, hm23.trans hm12, hi23.trans hi12, fun hl => hl23 (hl12 hl)⟩

theorem regStep_updStatus (reg : Registry) (id : String)
    (f : PluginStatus → PluginStatus)
    (hmono : ∀ st, st.loaded = true → (f st).loaded = true) :
    RegStep reg (updStatus reg id f) := by
  constructor
  · intro x
    by_cases hx : x = id
    · subst hx
      rw [lookupReg_updStatus_self]
      cases lookupReg reg x <;> simp
    · rw [lookupReg_updStatus_other reg id x f hx]
  · intro x p' h
    by_cases hx : x = id
    · subst hx
      rw [lookupReg_updStatus_self] at h
      cases hl : lookupReg reg x with
      | none => rw [hl] at h; cases h
      | some p0 =>
        rw [hl] at h
        simp only [Option.map_some'] at h
        cases h
        exact ⟨p0, rfl, rfl, rfl, hmono p0.status⟩
    · rw [lookupReg_updStatus_other reg id x f hx] at h
      exact ⟨p', h, rfl, rfl, fun hh => hh⟩

/-- Claim C1's engine invariant (amended form): an active plugin has
either run `setup` (`loaded = true`) or has no `setup` callback at all. -/
def ActiveLoadedInv (s : MState) : Prop :=
  ∀ e ∈ s.plugins, e.2.status.active = true →
    e.2.status.loaded = true ∨ e.2.impl.setup = none

theorem inv_updStatus_loaded {l : Registry} {id : String}
    (hinv : ∀ e ∈ l, e.2.status.active = true →
      e.2.status.loaded = true ∨ e.2.impl.setup = none) :
    ∀ e ∈ updStatus l id (fun st => {st with loaded := true}),
      e.2.status.active = true → e.2.status.loaded = true ∨ e.2.impl.setup = none := by
  induction l with
  | nil => simp [updStatus]
  | cons e rest ih =>
    obtain ⟨k, v⟩ := e
    have hinv' : ∀ e ∈ rest, e.2.status.active = true →
        e.2.status.loaded = true ∨ e.2.impl.setup = none :=
      fun e he => hinv e (by simp [he])
    by_cases hk : k = id
    · subst hk
      simp only [updStatus, if_pos rfl]
      intro e he
      rcases List.mem_cons.mp he with rfl | he'
      · intro _
        exact Or.inl rfl
      · exact hinv' e he'
    · simp only [updStatus, if_neg hk]
      intro e he
      rcases List.mem_cons.mp he with rfl | he'
      · exact hinv (k, v) (by simp)
      · exact ih hinv' e he'

theorem inv_updStatus_activate {l : Registry} {id : String} {n : Nat}
    (hinv : ∀ e ∈ l, e.2.status.active = true →
      e.2.status.loaded = true ∨ e.2.impl.setup = none)
    (hok : ∀ p, lookupReg l id = some p →
      p.status.loaded = true ∨ p.impl.setup = none) :
    ∀ e ∈ updStatus l id (fun st => {st with active := true, activatedAt := some n}),
      e.2.status.active = true → e.2.status.loaded = true ∨ e.2.impl.setup = none := by
  induction l with
  | nil => simp [updStatus]
  | cons e rest ih =>
    obtain ⟨k, v⟩ := e
    have hinv' : ∀ e ∈ rest, e.2.status.active = true →
        e.2.status.loaded = true ∨ e.2.impl.setup = none :=
      fun e he => hinv e (by simp [he])
    by_cases hk : k = id
    · subst hk
      simp only [updStatus, if_pos rfl]
      intro e he
      rcases List.mem_cons.mp he with rfl | he'
      · intro _
        exact hok v (by simp [lookupReg])
      · exact hinv' e he'
    · simp only [updStatus, if_neg hk]
      intro e he
      rcases List.mem_cons.mp he with rfl | he'
      · exact hinv (k, v) (by simp)
      · refine ih hinv' ?_ e he'
        intro p hp
        exact hok p (by simp [lookupReg, hk, hp])

theorem inv_updStatus_deactivate {l : Registry} {id : String}
    (hinv : ∀ e ∈ l, e.2.status.active = true →
      e.2.status.loaded = true ∨ e.2.impl.setup = none) :
    ∀ e ∈ updStatus l id (fun st => {st with active := false}),
      e.2.status.active = true → e.2.status.loaded = true ∨ e.2.impl.setup = none := by
  induction l with
  | nil => simp [updStatus]
  | cons e rest ih =>
    obtain ⟨k, v⟩ := e
    have hinv' : ∀ e ∈ rest, e.2.status.active = true →
        e.2.status.loaded = true ∨ e.2.impl.setup = none :=
      fun e he => hinv e (by simp [he])
    by_cases hk : k = id
    · subst hk
      simp only [updStatus, if_pos rfl]
      intro e he
      rcases List.mem_cons.mp he with rfl | he'
      · intro ha
        cases ha
      · exact hinv' e he'
    · simp only [updStatus, if_neg hk]
      intro e he
      rcases List.mem_cons.mp he with rfl | he'
      · exact hinv (k, v) (by simp)
      · exact ih hinv' e he'

namespace PluginManager

theorem setupPhase_spec (id : String) (p : Plugin) (s : MState)
    (hlk : lookupReg s.plugins id = some p) :
    RegStep s.plugins (setupPhase id p s).2.plugins ∧
    (ActiveLoadedInv s → ActiveLoadedInv (setupPhase id p s).2) ∧
    ((setupPhase id p s).1 = true →
      ∃ p', lookupReg (setupPhase id p s).2.plugins id = some p' ∧
        p'.impl = p.impl ∧
        (p.impl.setup ≠ none → p'.status.loaded = true) ∧
        (p.status.loaded = true → p'.status.loaded = true)) := by
  cases hld : p.status.loaded with
  | true =>
    have hres : setupPhase id p s = (true, s) := by
      simp [setupPhase, hld]
    rw [hres]
    refine ⟨regStep_refl _, fun h => h, ?_⟩
    intro _
    exact ⟨p, hlk, rfl, fun _ => hld, fun _ => hld⟩
  | false =>
    cases hsu : p.impl.setup with
    | none =>
      have hres : setupPhase id p s = (true, s) := by
        simp [setupPhase, hld, hsu]
      rw [hres]
      refine ⟨regStep_refl _, fun h => h, ?_⟩
      intro _
      exact ⟨p, hlk, rfl, fun hne => absurd rfl hne, fun h => by cases h⟩
    | some k =>
      cases k with
      | false =>
        have hres : setupPhase id p s =
            (false, emitEv (emitEv s (.beforePluginSetup id)) (.setupCalled id)) := by
          simp [setupPhase, hld, hsu]
        rw [hres]
        refine ⟨regStep_refl _, fun h => h, ?_⟩
        intro h
        cases h
      | true =>
        have h2 : (setupPhase id p s).2.plugins =
            updStatus s.plugins id (fun st => {st with loaded := true}) := by
          simp [setupPhase, hld, hsu, emitEv]
        have h1 : (setupPhase id p s).1 = true := by
          simp [setupPhase, hld, hsu]
        refine ⟨?_, ?_, ?_⟩
        · rw [h2]
          exact regStep_updStatus _ _ _ (fun st _ => rfl)
        · intro hinv e he
          rw [h2] at he
          exact inv_updStatus_loaded hinv e he
        · intro _
          rw [h2, lookupReg_updStatus_self, hlk]
          exact ⟨_, rfl, rfl, fun _ => rfl, fun _ => rfl⟩

theorem finishActivate_spec (id : String) (s : MState) {p3 : Plugin}
    (hlk : lookupReg s.plugins id = some p3)
    (hok : p3.status.loaded = true ∨ p3.impl.setup = none) :
    (finishActivate id s).1 = true ∧
    RegStep s.plugins (finishActivate id s).2.plugins ∧
    (ActiveLoadedInv s → ActiveLoadedInv (finishActivate id s).2) ∧
    ∃ p', lookupReg (finishActivate id s).2.plugins id = some p' ∧
      p'.status.active = true ∧ p'.impl = p3.impl ∧
      p'.status.loaded = p3.status.loaded := by
  have h2 : (finishActivate id s).2.plugins =
      updStatus s.plugins id
        (fun st => {st with active := true, activatedAt := some s.now}) := rfl
  refine ⟨rfl, ?_, ?_, ?_⟩
  · rw [h2]
    exact regStep_updStatus _ _ _ (fun st hh => hh)
  · intro hinv e he
    rw [h2] at he
    refine inv_updStatus_activate hinv ?_ e he
    intro q hq
    rw [hlk] at hq
    cases hq
    exact hok
  · rw [h2, lookupReg_updStatus_self, hlk]
    exact ⟨_, rfl, rfl, rfl, rfl⟩

theorem implActivatePhase_spec (id : String) (p : Plugin) (s : MState) {p3 : Plugin}
    (hlk : lookupReg s.plugins id = some p3)
    (hok : p3.status.loaded = true ∨ p3.impl.setup = none) :
    RegStep s.plugins (implActivatePhase id p s).2.plugins ∧
    (ActiveLoadedInv s → ActiveLoadedInv (implActivatePhase id p s).2) ∧
    ((implActivatePhase id p s).1 = true →
      ∃ p', lookupReg (implActivatePhase id p s).2.plugins id = some p' ∧
        p'.status.active = true ∧ p'.impl = p3.impl ∧
        p'.status.loaded = p3.status.loaded) ∧
    (p.impl.activate ≠ some false → (implActivatePhase id p s).1 = true) := by
  cases hia : p.impl.activate with
  | none =>
    have hres : implActivatePhase id p s = finishActivate id s := by
      simp [implActivatePhase, hia]
    rw [hres]
    obtain ⟨h1, hstep, hinv, hpost⟩ := finishActivate_spec id s hlk hok
    exact ⟨hstep, hinv, fun _ => hpost, fun _ => h1⟩
  | some k =>
    cases k with
    | false =>
      have hres : implActivatePhase id p s =
          (false, emitEv s (.activateImplCalled id)) := by
        simp [implActivatePhase, hia]
      rw [hres]
      refine ⟨regStep_refl _, fun h => h, ?_, ?_⟩
      · intro h
        cases h
      · intro hne
        exact absurd rfl hne
    | true =>
      have hres : implActivatePhase id p s =
          finishActivate id (emitEv s (.activateImplCalled id)) := by
        simp [implActivatePhase, hia]
      rw [hres]
      have hlk' : lookupReg (emitEv s (.activateImplCalled id)).plugins id =
          some p3 := hlk
      obtain ⟨h1, hstep, hinvp, hpost⟩ :=
        finishActivate_spec id (emitEv s (.activateImplCalled id)) hlk' hok
      exact ⟨hstep, fun h => hinvp h, fun _ => hpost, fun _ => h1⟩

theorem activateDeps_spec (strict : Bool)
    (recurse : String → MState → Bool × MState)
    (hrec : ∀ d t, RegStep t.plugins (recurse d t).2.plugins ∧
      (ActiveLoadedInv t → ActiveLoadedInv (recurse d t).2)) :
    ∀ (ds : List String) (s : MState),
    RegStep s.plugins (activateDeps strict recurse ds s).2.plugins ∧
    (ActiveLoadedInv s → ActiveLoadedInv (activateDeps strict recurse ds s).2) ∧
    ((∀ d ∈ ds, (lookupReg s.plugins d).isSome) →
      (activateDeps strict recurse ds s).1 = true) := by
  intro ds
  induction ds with
  | nil =>
    intro s
    exact ⟨regStep_refl _, fun h => h, fun _ => rfl⟩
  | cons d ds ih =>
    intro s
    cases hlk : lookupReg s.plugins d with
    | none =>
      by_cases hstrict : strict = true
      · subst hstrict
        have hres : activateDeps true recurse (d :: ds) s = (false, s) := by
          simp [activateDeps, hlk]
        rw [hres]
        refine ⟨regStep_refl _, fun h => h, ?_⟩
        intro hall
        have hd := hall d (by simp)
        rw [hlk] at hd
        cases hd
      · have hsf : strict = false := by
          cases strict
          · rfl
          · exact absurd rfl hstrict
        subst hsf
        have hres : activateDeps false recurse (d :: ds) s =
            activateDeps false recurse ds s := by
          simp [activateDeps, hlk]
        rw [hres]
        obtain ⟨hstep, hinv, hall⟩ := ih s
        exact ⟨hstep, hinv, fun h => hall (fun d' hd' => h d' (by simp [hd']))⟩
    | some q =>
      by_cases hq : q.status.active = true
      · have hres : activateDeps strict recurse (d :: ds) s =
            activateDeps strict recurse ds s := by
          simp [activateDeps, hlk, hq]
        rw [hres]
        obtain ⟨hstep, hinv, hall⟩ := ih s
        exact ⟨hstep, hinv, fun h => hall (fun d' hd' => h d' (by simp [hd']))⟩
      · have hres : activateDeps strict recurse (d :: ds) s =
            activateDeps strict recurse ds (recurse d s).2 := by
          simp [activateDeps, hlk, hq]
        rw [hres]
        obtain ⟨hstepR, hinvR⟩ := hrec d s
        obtain ⟨hstep, hinv, hall⟩ := ih (recurse d s).2
        refine ⟨regStep_trans hstepR hstep, fun h => hinv (hinvR h), ?_⟩
        intro h
        refine hall ?_
        intro d' hd'
        exact (hstepR.1 d').mp (h d' (by simp [hd']))

end PluginManager

namespace PluginManager

theorem activate_succ_eq (opts : MOptions) (fuel : Nat) (id : String) (s : MState) :
    activate opts (fuel + 1) id s =
      match lookupReg s.plugins id with
      | none => (false, s)
      | some p =>
        if p.status.active then (true, s)
        else if s.contextInit = false then (false, s)
        else
          let s1 := emitEv s (.beforePluginActivate id)
          let su := setupPhase id p s1
          if su.1 = false then (false, su.2)
          else
            let dp :=
              if opts.resolveDependencies ∧ p.meta.dependencies ≠ [] then
                activateDeps opts.strictDependencies (activate opts fuel)
                  p.meta.dependencies su.2
              else (true, su.2)
            if dp.1 = false then (false, dp.2)
            else implActivatePhase id p dp.2 := rfl

theorem activate_spec (opts : MOptions) :
    ∀ (fuel : Nat) (id : String) (s : MState),
    RegStep s.plugins (activate opts fuel id s).2.plugins ∧
    (ActiveLoadedInv s → ActiveLoadedInv (activate opts fuel id s).2) ∧
    (ActiveLoadedInv s → (activate opts fuel id s).1 = true →
      ∃ p, lookupReg (activate opts fuel id s).2.plugins id = some p ∧
        p.status.active = true ∧ (p.impl.setup ≠ none → p.status.loaded = true)) := by
  intro fuel
  induction fuel with
  | zero =>
    intro id s
    exact ⟨regStep_refl _, fun h => h, fun _ h => by cases h⟩
  | succ fuel ih =>
    intro id s
    cases hlk : lookupReg s.plugins id with
    | none =>
      have hres : activate opts (fuel + 1) id s = (false, s) := by
        rw [activate_succ_eq, hlk]
      rw [hres]
      exact ⟨regStep_refl _, fun h => h, fun _ h => by cases h⟩
    | some p =>
      by_cases hact : p.status.active = true
      · have hres : activate opts (fuel + 1) id s = (true, s) := by
          rw [activate_succ_eq, hlk]
          simp [hact]
        rw [hres]
        refine ⟨regStep_refl _, fun h => h, ?_⟩
        intro hinv _
        exact ⟨p, hlk, hact,
          fun hne => (hinv (id, p) (lookupReg_mem hlk) hact).resolve_right hne⟩
      · cases hctx : s.contextInit with
        | false =>
          have hres : activate opts (fuel + 1) id s = (false, s) := by
            rw [activate_succ_eq, hlk]
            simp [hact, hctx]
          rw [hres]
          exact ⟨regStep_refl _, fun h => h, fun _ h => by cases h⟩
        | true =>
          have hlk1 : lookupReg (emitEv s (.beforePluginActivate id)).plugins id =
              some p := hlk
          obtain ⟨hsuStep, hsuInv, hsuPost⟩ :=
            setupPhase_spec id p (emitEv s (.beforePluginActivate id)) hlk1
          by_cases hsu1 : (setupPhase id p (emitEv s (.beforePluginActivate id))).1 = false
          · have hres : activate opts (fuel + 1) id s =
                (false, (setupPhase id p (emitEv s (.beforePluginActivate id))).2) := by
              rw [activate_succ_eq, hlk]
              simp [hact, hctx, hsu1]
            rw [hres]
            exact ⟨hsuStep, fun h => hsuInv h, fun _ h => by cases h⟩
          · have hsu1' : (setupPhase id p (emitEv s (.beforePluginActivate id))).1 = true := by
              revert hsu1
              cases (setupPhase id p (emitEv s (.beforePluginActivate id))).1
              · intro h
                exact absurd rfl h
              · intro _
                rfl
            obtain ⟨p1, hlkp1, himpl1, hload1, hloadm1⟩ := hsuPost hsu1'
            -- dependency step facts, uniformly over the if
            have hdp : RegStep (setupPhase id p (emitEv s (.beforePluginActivate id))).2.plugins
                ((if opts.resolveDependencies ∧ p.meta.dependencies ≠ [] then
                    activateDeps opts.strictDependencies (activate opts fuel)
                      p.meta.dependencies
                      (setupPhase id p (emitEv s (.beforePluginActivate id))).2
                  else (true, (setupPhase id p (emitEv s (.beforePluginActivate id))).2)).2.plugins) ∧
                (ActiveLoadedInv (setupPhase id p (emitEv s (.beforePluginActivate id))).2 →
                  ActiveLoadedInv (if opts.resolveDependencies ∧ p.meta.dependencies ≠ [] then
                    activateDeps opts.strictDependencies (activate opts fuel)
                      p.meta.dependencies
                      (setupPhase id p (emitEv s (.beforePluginActivate id))).2
                  else (true, (setupPhase id p (emitEv s (.beforePluginActivate id))).2)).2) := by
              by_cases hrd : opts.resolveDependencies ∧ p.meta.dependencies ≠ []
              · rw [if_pos hrd]
                obtain ⟨h1, h2, _⟩ :=
                  activateDeps_spec opts.strictDependencies (activate opts fuel)
                    (fun d t => ⟨(ih d t).1, (ih d t).2.1⟩) p.meta.dependencies
                    (setupPhase id p (emitEv s (.beforePluginActivate id))).2
                exact ⟨h1, h2⟩
              · rw [if_neg hrd]
                exact ⟨regStep_refl _, fun h => h⟩
            obtain ⟨hdpStep, hdpInv⟩ := hdp
            by_cases hdp1 : (if opts.resolveDependencies ∧ p.meta.dependencies ≠ [] then
                activateDeps opts.strictDependencies (activate opts fuel)
                  p.meta.dependencies
                  (setupPhase id p (emitEv s (.beforePluginActivate id))).2
              else (true, (setupPhase id p (emitEv s (.beforePluginActivate id))).2)).1 = false
            · have hres : activate opts (fuel + 1) id s =
                  (false, (if opts.resolveDependencies ∧ p.meta.dependencies ≠ [] then
                    activateDeps opts.strictDependencies (activate opts fuel)
                      p.meta.dependencies
                      (setupPhase id p (emitEv s (.beforePluginActivate id))).2
                  else (true, (setupPhase id p (emitEv s (.beforePluginActivate id))).2)).2) := by
                rw [activate_succ_eq, hlk]
                simp only [hact, hctx]
                simp [hsu1', hdp1]
              rw [hres]
              exact ⟨regStep_trans hsuStep hdpStep, fun h => hdpInv (hsuInv h),
                fun _ h => by cases h⟩
            · -- the implementation-activation tail runs
              have hsome3 : (lookupReg (if opts.resolveDependencies ∧ p.meta.dependencies ≠ [] then
                  activateDeps opts.strictDependencies (activate opts fuel)
                    p.meta.dependencies
                    (setupPhase id p (emitEv s (.beforePluginActivate id))).2
                else (true, (setupPhase id p (emitEv s (.beforePluginActivate id))).2)).2.plugins id).isSome := by
                refine (hdpStep.1 id).mp ?_
                rw [hlkp1]
                rfl
              obtain ⟨p3, hlkp3⟩ := Option.isSome_iff_exists.mp hsome3
              obtain ⟨p1', hlkp1', hm3, hi3, hl3⟩ := hdpStep.2 id p3 hlkp3
              rw [hlkp1] at hlkp1'
              cases hlkp1'
              have hok3 : p3.status.loaded = true ∨ p3.impl.setup = none := by
                by_cases hsn : p.impl.setup = none
                · right
                  rw [hi3, himpl1]
                  exact hsn
                · left
                  exact hl3 (hload1 hsn)
              obtain ⟨hiStep, hiInv, hiPost, _⟩ :=
                implActivatePhase_spec id p _ hlkp3 hok3
              have hres : activate opts (fuel + 1) id s =
                  implActivatePhase id p (if opts.resolveDependencies ∧ p.meta.dependencies ≠ [] then
                    activateDeps opts.strictDependencies (activate opts fuel)
                      p.meta.dependencies
                      (setupPhase id p (emitEv s (.beforePluginActivate id))).2
                  else (true, (setupPhase id p (emitEv s (.beforePluginActivate id))).2)).2 := by
                rw [activate_succ_eq, hlk]
                simp only [hact, hctx]
                simp [hsu1', hdp1]
              rw [hres]
              refine ⟨regStep_trans hsuStep (regStep_trans hdpStep hiStep),
                fun h => hiInv (hdpInv (hsuInv h)), ?_⟩
              intro _ h1
              obtain ⟨p', hlkp', hact', himpl', hload'⟩ := hiPost h1
              refine ⟨p', hlkp', hact', ?_⟩
              intro hne
              rw [himpl', hi3, himpl1] at hne
              rcases hok3 with h | h
              · rw [hload', h]
              · rw [hi3, himpl1] at h
                exact absurd h hne

theorem finishDeactivate_spec (id : String) (s : MState) :
    (finishDeactivate id s).1 = true ∧
    RegStep s.plugins (finishDeactivate id s).2.plugins ∧
    (ActiveLoadedInv s → ActiveLoadedInv (finishDeactivate id s).2) := by
  have h2 : (finishDeactivate id s).2.plugins =
      updStatus s.plugins id (fun st => {st with active := false}) := rfl
  refine ⟨rfl, ?_, ?_⟩
  · rw [h2]
    exact regStep_updStatus _ _ _ (fun st hh => hh)
  · intro hinv e he
    rw [h2] at he
    exact inv_updStatus_deactivate hinv e he

theorem deactivate_spec (opts : MOptions) (id : String) (s : MState) :
    RegStep s.plugins (deactivate opts id s).2.plugins ∧
    (ActiveLoadedInv s → ActiveLoadedInv (deactivate opts id s).2) := by
  cases hlk : lookupReg s.plugins id with
  | none =>
    have hres : deactivate opts id s = (false, s) := by
      simp [deactivate, hlk]
    rw [hres]
    exact ⟨regStep_refl _, fun h => h⟩
  | some p =>
    by_cases hact : p.status.active = false
    · have hres : deactivate opts id s = (true, s) := by
        simp [deactivate, hlk, hact]
      rw [hres]
      exact ⟨regStep_refl _, fun h => h⟩
    · by_cases hguard : opts.strictDependencies ∧
          findPluginDependents (emitEv s (.beforePluginDeactivate id)).plugins id ≠ []
      · have hres : deactivate opts id s =
            (false, emitEv s (.beforePluginDeactivate id)) := by
          simp only [deactivate, hlk]
          rw [if_neg hact, if_pos hguard]
        rw [hres]
        exact ⟨regStep_refl _, fun h => h⟩
      · cases hid : p.impl.deactivate with
        | none =>
          have hres : deactivate opts id s =
              finishDeactivate id (emitEv s (.beforePluginDeactivate id)) := by
            simp only [deactivate, hlk]
            rw [if_neg hact, if_neg hguard]
            simp [hid]
          rw [hres]
          obtain ⟨_, hstep, hinv⟩ :=
            finishDeactivate_spec id (emitEv s (.beforePluginDeactivate id))
          exact ⟨hstep, fun h => hinv h⟩
        | some k =>
          cases k with
          | false =>
            have hres : deactivate opts id s =
                (false, emitEv (emitEv s (.beforePluginDeactivate id))
                  (.deactivateImplCalled id)) := by
              simp only [deactivate, hlk]
              rw [if_neg hact, if_neg hguard]
              simp [hid]
            rw [hres]
            exact ⟨regStep_refl _, fun h => h⟩
          | true =>
            have hres : deactivate opts id s =
                finishDeactivate id (emitEv (emitEv s (.beforePluginDeactivate id))
                  (.deactivateImplCalled id)) := by
              simp only [deactivate, hlk]
              rw [if_neg hact, if_neg hguard]
              simp [hid]
            rw [hres]
            obtain ⟨_, hstep, hinv⟩ :=
              finishDeactivate_spec id (emitEv (emitEv s (.beforePluginDeactivate id))
                (.deactivateImplCalled id))
            exact ⟨hstep, fun h => hinv h⟩

/-- A strict-mode deactivation with a registered dependent is denied right
after the `beforePluginDeactivate` hook: it returns `false` and the only
state change is that hook's trace entry. -/
theorem deactivate_denied {opts : MOptions} {id : String} {s : MState} {p : Plugin}
    (hstrict : opts.strictDependencies = true)
    (hlk : lookupReg s.plugins id = some p)
    (hact : p.status.active = true)
    (hdeps : findPluginDependents s.plugins id ≠ []) :
    deactivate opts id s = (false, emitEv s (.beforePluginDeactivate id)) := by
  have hact' : ¬ p.status.active = false := by
    rw [hact]
    intro h
    cases h
  simp only [deactivate, hlk]
  rw [if_neg hact', if_pos ⟨hstrict, hdeps⟩]

theorem inv_append {l : Registry} {id : String} {v : Plugin}
    (hinv : ∀ e ∈ l, e.2.status.active = true →
      e.2.status.loaded = true ∨ e.2.impl.setup = none)
    (hv : v.status.active = false) :
    ∀ e ∈ l ++ [(id, v)], e.2.status.active = true →
      e.2.status.loaded = true ∨ e.2.impl.setup = none := by
  intro e he
  rcases List.mem_append.mp he with h | h
  · exact hinv e h
  · simp only [List.mem_singleton] at h
    subst h
    intro ha
    rw [hv] at ha
    cases ha

theorem register_existing {opts : MOptions} {fuel : Nat} {meta : PluginMeta}
    {impl : PluginImpl} {s : MState} {p : Plugin}
    (hlk : lookupReg s.plugins meta.id = some p) :
    register opts fuel meta impl s =
      (some p, {s with loading := false, error := none}) := by
  simp only [register]
  rw [show lookupReg ({s with loading := true, error := none} : MState).plugins
      meta.id = some p from hlk]

theorem register_inv {opts : MOptions} {fuel : Nat} {meta : PluginMeta}
    {impl : PluginImpl} {s : MState}
    (hinv : ActiveLoadedInv s) :
    ActiveLoadedInv (register opts fuel meta impl s).2 := by
  cases hlk : lookupReg s.plugins meta.id with
  | some p =>
    rw [register_existing hlk]
    exact hinv
  | none =>
    simp only [register]
    rw [show lookupReg ({s with loading := true, error := none} : MState).plugins
        meta.id = none from hlk]
    by_cases hauto : opts.autoActivate ∧ meta.enabled ≠ some false
    · rw [if_pos hauto]
      exact (activate_spec opts fuel meta.id _).2.1 (inv_append hinv rfl)
    · rw [if_neg hauto]
      exact inv_append hinv rfl

theorem register_new {opts : MOptions} {fuel : Nat} {meta : PluginMeta}
    {impl : PluginImpl} {s : MState}
    (hlk : lookupReg s.plugins meta.id = none) :
    ∃ rec, (register opts fuel meta impl s).1 = some rec ∧
      ∃ rec', lookupReg (register opts fuel meta impl s).2.plugins meta.id =
        some rec' := by
  simp only [register]
  rw [show lookupReg ({s with loading := true, error := none} : MState).plugins
      meta.id = none from hlk]
  by_cases hauto : opts.autoActivate ∧ meta.enabled ≠ some false
  · rw [if_pos hauto]
    have h1 : lookupReg (s.plugins ++ [(meta.id, registerRecord meta impl s.now)])
        meta.id = some (registerRecord meta impl s.now) :=
      lookupReg_append_new hlk
    have hsome : (lookupReg (activate opts fuel meta.id {s with loading := true, plugins := s.plugins ++ [(meta.id, registerRecord meta impl s.now)], now := s.now + 1, error := none}).2.plugins meta.id).isSome := by
      refine ((activate_spec opts fuel meta.id _).1.1 meta.id).mp ?_
      rw [show lookupReg ({s with loading := true, plugins := s.plugins ++ [(meta.id, registerRecord meta impl s.now)], now := s.now + 1, error := none} : MState).plugins meta.id = some (registerRecord meta impl s.now) from h1]
      rfl
    obtain ⟨rec', hrec'⟩ := Option.isSome_iff_exists.mp hsome
    exact ⟨rec', hrec', rec', hrec'⟩
  · rw [if_neg hauto]
    exact ⟨registerRecord meta impl s.now, rfl,
      registerRecord meta impl s.now, lookupReg_append_new hlk⟩

theorem runOp_inv (opts : MOptions) (fuel : Nat) :
    ∀ (op : MOp) (s : MState), ActiveLoadedInv s →
      ActiveLoadedInv (runOp opts fuel op s) := by
  intro op s hinv
  cases op with
  | reg m i => exact register_inv hinv
  | act id => exact (activate_spec opts fuel id s).2.1 hinv
  | deact id => exact (deactivate_spec opts id s).2 hinv

theorem runOps_inv (opts : MOptions) (fuel : Nat) :
    ∀ (ops : List MOp) (s : MState), ActiveLoadedInv s →
      ActiveLoadedInv (runOps opts fuel ops s) := by
  intro ops
  induction ops with
  | nil =>
    intro s h
    exact h
  | cons op ops ih =>
    intro s h
    exact ih _ (runOp_inv opts fuel op s h)

end PluginManager

namespace PluginManager

theorem setupPhase_ok (id : String) (p : Plugin) (s : MState)
    (h : ¬(p.status.loaded = false ∧ p.impl.setup = some false)) :
    (setupPhase id p s).1 = true := by
  cases hld : p.status.loaded with
  | true => simp [setupPhase, hld]
  | false =>
    cases hsu : p.impl.setup with
    | none => simp [setupPhase, hld, hsu]
    | some k =>
      cases k with
      | false => exact absurd ⟨hld, hsu⟩ h
      | true => simp [setupPhase, hld, hsu]

theorem implActivatePhase_ok (id : String) (p : Plugin) (s : MState)
    (h : p.impl.activate ≠ some false) :
    (implActivatePhase id p s).1 = true := by
  cases hia : p.impl.activate with
  | none => simp [implActivatePhase, hia, finishActivate]
  | some k =>
    cases k with
    | false => exact absurd hia h
    | true => simp [implActivatePhase, hia, finishActivate]

end PluginManager

/-! ## Claim theorems about the lifecycle engine -/

/-- Claim C1 (amended): after any sequence of register/activate/deactivate
operations the invariant `status.active ⇒ (status.loaded ∨ the plugin has
no setup callback)` holds for every registered plugin; and whenever
`activate(id)` returns true, the plugin is afterwards `active = true` and,
if it has a `setup` callback, `loaded = true`.  (The unconditional
`active ⇒ loaded` of the original claim fails for plugins without a
`setup` callback, which never become `loaded` — see the counterexample.) -/
theorem activate_active_implies_loaded (opts : MOptions) (fuel : Nat) :
    (∀ (ops : List PluginManager.MOp) (s : MState), ActiveLoadedInv s →
      ActiveLoadedInv (PluginManager.runOps opts fuel ops s)) ∧
    (∀ (id : String) (s : MState), ActiveLoadedInv s →
      (PluginManager.activate opts fuel id s).1 = true →
      ∃ p, lookupReg (PluginManager.activate opts fuel id s).2.plugins id = some p ∧
        p.status.active = true ∧ (p.impl.setup ≠ none → p.status.loaded = true)) :=
  ⟨PluginManager.runOps_inv opts fuel,
   fun id s hinv htrue =>
    (PluginManager.activate_spec opts fuel id s).2.2 hinv htrue⟩

/-- A plugin record with explicit callbacks, used in manager witnesses. -/
def mPlugin (id : String) (deps : List String) (su ac de : Option Bool) : Plugin :=
  { meta := { id := id, name := id, version := "1.0.0",
              dependencies := deps, enabled := none },
    impl := { setup := su, activate := ac, deactivate := de },
    status := { loaded := false, active := false,
                installedAt := 0, activatedAt := none } }

/-- An already-active, already-loaded plugin record. -/
def mActivePlugin (id : String) (deps : List String) : Plugin :=
  { meta := { id := id, name := id, version := "1.0.0",
              dependencies := deps, enabled := none },
    impl := { setup := none, activate := none, deactivate := none },
    status := { loaded := true, active := true,
                installedAt := 0, activatedAt := some 0 } }

/-- Manager options with the constructor defaults:
`autoActivate: true, resolveDependencies: true, strictDependencies: false`. -/
def mOpts : MOptions :=
  { autoActivate := true, resolveDependencies := true, strictDependencies := false }

/-- Manager options with `strictDependencies: true`. -/
def mOptsStrict : MOptions :=
  { autoActivate := true, resolveDependencies := true, strictDependencies := true }

/-- An initialized manager state over a given registry. -/
def mState (reg : Registry) : MState :=
  { plugins := reg, contextInit := true, loading := false,
    error := none, trace := [], now := 0 }

/-- A demonstration operation sequence: register, activate, deactivate. -/
def demoOps : List PluginManager.MOp :=
  [.reg { id := "db", name := "db", version := "1.0.0",
          dependencies := [], enabled := none }
       { setup := some true, activate := some true, deactivate := some true },
   .act "db", .deact "db"]

/-- Witness for claim C1 at a concrete operation sequence. -/
theorem activate_active_implies_loaded_witness :
    ActiveLoadedInv (mState []) ∧
    ActiveLoadedInv (PluginManager.runOps mOpts 5 demoOps (mState [])) := by
  have h0 : ActiveLoadedInv (mState []) := by
    intro e he
    simp [mState] at he
  exact ⟨h0, (activate_active_implies_loaded mOpts 5).1 demoOps (mState []) h0⟩

/-- A registry with a single plugin that has no setup callback. -/
def noSetupState : MState := mState [("a", mPlugin "a" [] none none none)]

/-- Counterexample to claim C1 as stated: a plugin whose implementation
lacks a `setup` callback activates successfully, yet afterwards
`status.active = true` while `status.loaded = false` — `activate` only
sets `loaded` when `impl.setup` exists, so `active ⇒ loaded` fails. -/
theorem activate_active_implies_loaded_counterexample :
    (PluginManager.activate mOpts 5 "a" noSetupState).1 = true ∧
    ∃ p, lookupReg (PluginManager.activate mOpts 5 "a" noSetupState).2.plugins "a"
        = some p ∧ p.status.active = true ∧ p.status.loaded = false := by
  exact ⟨rfl, _, rfl, rfl, rfl⟩

/-- Claim C2 (amended/corrected): the recursive activation of a present,
inactive dependency is invoked, but its boolean result is discarded
(plugin-manager.ts line 136 ignores the value of `await this.activate(depId)`),
so a dependency's activation failure does not propagate: `activate(p)`
returns true whenever `p`'s own setup and activate callbacks succeed and
all its declared dependencies are present, regardless of whether any
dependency's activation failed. -/
theorem activate_dependency_failure_not_propagated (opts : MOptions) (fuel : Nat)
    (id : String) (s : MState) (p : Plugin)
    (hrd : opts.resolveDependencies = true)
    (hlk : lookupReg s.plugins id = some p)
    (hact : ¬ p.status.active = true)
    (hctx : s.contextInit = true)
    (hsetup : ¬(p.status.loaded = false ∧ p.impl.setup = some false))
    (himplact : p.impl.activate ≠ some false)
    (hdeps : ∀ d ∈ p.meta.dependencies, (lookupReg s.plugins d).isSome) :
    (PluginManager.activate opts (fuel + 1) id s).1 = true := by
  have hctxne : ¬ s.contextInit = false := by
    rw [hctx]
    intro h
    cases h
  rw [PluginManager.activate_succ_eq, hlk]
  show (if p.status.active then ((true, s) : Bool × MState)
    else if s.contextInit = false then (false, s)
    else
      let s1 := emitEv s (.beforePluginActivate id)
      let su := PluginManager.setupPhase id p s1
      if su.1 = false then (false, su.2)
      else
        let dp :=
          if opts.resolveDependencies ∧ p.meta.dependencies ≠ [] then
            PluginManager.activateDeps opts.strictDependencies
              (PluginManager.activate opts fuel) p.meta.dependencies su.2
          else (true, su.2)
        if dp.1 = false then (false, dp.2)
        else PluginManager.implActivatePhase id p dp.2).1 = true
  rw [if_neg hact, if_neg hctxne]
  simp only []
  have hsu1 : (PluginManager.setupPhase id p (emitEv s (.beforePluginActivate id))).1 = true :=
    PluginManager.setupPhase_ok id p _ hsetup
  have hne1 : ¬ (PluginManager.setupPhase id p (emitEv s (.beforePluginActivate id))).1 = false := by
    rw [hsu1]
    intro h
    cases h
  rw [if_neg hne1]
  by_cases hrd2 : opts.resolveDependencies ∧ p.meta.dependencies ≠ []
  · rw [if_pos hrd2]
    obtain ⟨hsuStep, _, _⟩ :=
      PluginManager.setupPhase_spec id p (emitEv s (.beforePluginActivate id)) hlk
    have hdeps' : ∀ d ∈ p.meta.dependencies,
        (lookupReg (PluginManager.setupPhase id p
          (emitEv s (.beforePluginActivate id))).2.plugins d).isSome := by
      intro d hd
      exact (hsuStep.1 d).mp (hdeps d hd)
    have hdp1 : (PluginManager.activateDeps opts.strictDependencies
        (PluginManager.activate opts fuel) p.meta.dependencies
        (PluginManager.setupPhase id p (emitEv s (.beforePluginActivate id))).2).1
        = true := by
      obtain ⟨_, _, hall⟩ :=
        PluginManager.activateDeps_spec opts.strictDependencies
          (PluginManager.activate opts fuel)
          (fun d t => ⟨(PluginManager.activate_spec opts fuel d t).1,
            (PluginManager.activate_spec opts fuel d t).2.1⟩)
          p.meta.dependencies
          (PluginManager.setupPhase id p (emitEv s (.beforePluginActivate id))).2
      exact hall hdeps'
    have hne2 : ¬ (PluginManager.activateDeps opts.strictDependencies
        (PluginManager.activate opts fuel) p.meta.dependencies
        (PluginManager.setupPhase id p (emitEv s (.beforePluginActivate id))).2).1
        = false := by
      rw [hdp1]
      intro h
      cases h
    rw [if_neg hne2]
    exact PluginManager.implActivatePhase_ok id p _ himplact
  · rw [if_neg hrd2]
    have hne3 : ¬ ((true, (PluginManager.setupPhase id p
        (emitEv s (.beforePluginActivate id))).2) : Bool × MState).1 = false := by
      intro h
      cases h
    rw [if_neg hne3]
    exact PluginManager.implActivatePhase_ok id p _ himplact

/-- Registry where `p` depends on `d`, `d` is registered and inactive, and
`d`'s activate callback throws. -/
def depFailState : MState :=
  mState [("d", mPlugin "d" [] none (some false) none),
          ("p", mPlugin "p" ["d"] none none none)]

/-- Witness for claim C2 (amended) at the concrete state `depFailState`. -/
theorem activate_dependency_failure_not_propagated_witness :
    (PluginManager.activate mOpts (4 + 1) "p" depFailState).1 = true := by
  refine activate_dependency_failure_not_propagated mOpts 4 "p" depFailState
    (mPlugin "p" ["d"] none none none) rfl rfl ?_ rfl ?_ ?_ ?_
  · intro h
    cases h
  · intro h
    cases h.2
  · intro h
    cases h
  · intro d hd
    have : d = "d" := by
      simpa [mPlugin] using hd
    subst this
    rfl

/-- Counterexample to claim C2 as stated: `p` declares the present,
inactive dependency `d`; `d`'s activation fails (`activate "d"` returns
false, and after `activate "p"` the dependency is still inactive), yet
`activate "p"` returns true. -/
theorem activate_dependency_failure_counterexample :
    (PluginManager.activate mOpts 5 "d" depFailState).1 = false ∧
    (PluginManager.activate mOpts 5 "p" depFailState).1 = true ∧
    ∃ pd, lookupReg (PluginManager.activate mOpts 5 "p" depFailState).2.plugins "d"
        = some pd ∧ pd.status.active = false := by
  exact ⟨rfl, rfl, _, rfl, rfl⟩

/-- Claim C6: under strict-dependencies mode, for every active registered
plugin whose id appears among the declared dependencies of another
registered plugin (active or not), `deactivate` returns false and leaves
the registry — in particular the plugin's status — unchanged; the
plugin's deactivate callback is not invoked: the only state change is the
`beforePluginDeactivate` trace entry (so no `deactivateImplCalled` entry is
appended). -/
theorem deactivate_strict_dependents_denied (opts : MOptions) (id : String)
    (s : MState) (p : Plugin) (oid : String) (q : Plugin)
    (hstrict : opts.strictDependencies = true)
    (hlk : lookupReg s.plugins id = some p)
    (hact : p.status.active = true)
    (hq : (oid, q) ∈ s.plugins) (hne : oid ≠ id)
    (hdep : id ∈ q.meta.dependencies) :
    (PluginManager.deactivate opts id s).1 = false ∧
    (PluginManager.deactivate opts id s).2.plugins = s.plugins ∧
    (PluginManager.deactivate opts id s).2.trace =
      s.trace ++ [MEv.beforePluginDeactivate id] := by
  have hdeps : PluginManager.findPluginDependents s.plugins id ≠ [] := by
    have hqm : q ∈ s.plugins.map Prod.snd := List.mem_map_of_mem Prod.snd hq
    have hqf : q ∈ PluginManager.findPluginDependents s.plugins id := by
      simp only [PluginManager.findPluginDependents, List.mem_filter]
      exact ⟨hqm, by simpa using hdep⟩
    intro hnil
    rw [hnil] at hqf
    simp at hqf
  rw [PluginManager.deactivate_denied hstrict hlk hact hdeps]
  exact ⟨rfl, rfl, rfl⟩

/-- Strict-mode state: active `db`, and `api` declares `db` among its
dependencies. -/
def strictDepState : MState :=
  mState [("db", mActivePlugin "db" []), ("api", mPlugin "api" ["db"] none none none)]

/-- Witness for claim C6 at the concrete state `strictDepState`. -/
theorem deactivate_strict_dependents_denied_witness :
    (PluginManager.deactivate mOptsStrict "db" strictDepState).1 = false ∧
    (PluginManager.deactivate mOptsStrict "db" strictDepState).2.plugins =
      strictDepState.plugins ∧
    (PluginManager.deactivate mOptsStrict "db" strictDepState).2.trace =
      strictDepState.trace ++ [MEv.beforePluginDeactivate "db"] :=
  deactivate_strict_dependents_denied mOptsStrict "db" strictDepState
    (mActivePlugin "db" []) "api" (mPlugin "api" ["db"] none none none)
    rfl rfl rfl (by decide) (by decide) (by decide)

/-- Claim C10: when a strict-mode deactivation is denied because a
registered plugin declares the target as a dependency, the
`beforePluginDeactivate` hook has already been emitted before the denial;
`afterPluginDeactivate` is not emitted and the deactivate callback is not
invoked — the trace grows by exactly the before-hook entry while the call
returns false. -/
theorem deactivate_denied_emits_before_hook (opts : MOptions) (id : String)
    (s : MState) (p : Plugin) (oid : String) (q : Plugin)
    (hstrict : opts.strictDependencies = true)
    (hlk : lookupReg s.plugins id = some p)
    (hact : p.status.active = true)
    (hq : (oid, q) ∈ s.plugins) (hne : oid ≠ id)
    (hdep : id ∈ q.meta.dependencies) :
    (PluginManager.deactivate opts id s).1 = false ∧
    (PluginManager.deactivate opts id s).2.trace =
      s.trace ++ [MEv.beforePluginDeactivate id] ∧
    (∀ e ∈ (PluginManager.deactivate opts id s).2.trace,
      e ∈ s.trace ∨ e = MEv.beforePluginDeactivate id) := by
  have hdeps : PluginManager.findPluginDependents s.plugins id ≠ [] := by
    have hqm : q ∈ s.plugins.map Prod.snd := List.mem_map_of_mem Prod.snd hq
    have hqf : q ∈ PluginManager.findPluginDependents s.plugins id := by
      simp only [PluginManager.findPluginDependents, List.mem_filter]
      exact ⟨hqm, by simpa using hdep⟩
    intro hnil
    rw [hnil] at hqf
    simp at hqf
  rw [PluginManager.deactivate_denied hstrict hlk hact hdeps]
  refine ⟨rfl, rfl, ?_⟩
  intro e he
  simp only [emitEv, List.mem_append, List.mem_singleton] at he
  exact he

/-- Witness for claim C10 at the concrete state `strictDepState`. -/
theorem deactivate_denied_emits_before_hook_witness :
    (PluginManager.deactivate mOptsStrict "db" strictDepState).1 = false ∧
    (PluginManager.deactivate mOptsStrict "db" strictDepState).2.trace =
      strictDepState.trace ++ [MEv.beforePluginDeactivate "db"] ∧
    (∀ e ∈ (PluginManager.deactivate mOptsStrict "db" strictDepState).2.trace,
      e ∈ strictDepState.trace ∨ e = MEv.beforePluginDeactivate "db") :=
  deactivate_denied_emits_before_hook mOptsStrict "db" strictDepState
    (mActivePlugin "db" []) "api" (mPlugin "api" ["db"] none none none)
    rfl rfl rfl (by decide) (by decide) (by decide)

/-- Claim C9: registering an already-present id returns the original
record unchanged — the same record created by the first call, with no new
record, no status reset (`loaded`/`active`/`installedAt` untouched since
the registry is unmodified), and no other observable change (trace and
clock untouched). -/
theorem register_idempotent (opts : MOptions) (fuel : Nat) (meta : PluginMeta)
    (impl : PluginImpl) (s : MState) (p : Plugin)
    (hlk : lookupReg s.plugins meta.id = some p) :
    (PluginManager.register opts fuel meta impl s).1 = some p ∧
    (PluginManager.register opts fuel meta impl s).2.plugins = s.plugins ∧
    (PluginManager.register opts fuel meta impl s).2.trace = s.trace ∧
    (PluginManager.register opts fuel meta impl s).2.now = s.now := by
  rw [PluginManager.register_existing hlk]
  exact ⟨rfl, rfl, rfl, rfl⟩

/-- A state in which `db` is already registered, loaded and active. -/
def dupRegState : MState := mState [("db", mActivePlugin "db" [])]

/-- Witness for claim C9: re-registering `db` (with a different
implementation) returns the original active record and leaves the registry
unchanged. -/
theorem register_idempotent_witness :
    (PluginManager.register mOpts 3
      { id := "db", name := "other", version := "2.0.0",
        dependencies := [], enabled := none }
      { setup := some true, activate := some true, deactivate := some true }
      dupRegState).1 = some (mActivePlugin "db" []) ∧
    (PluginManager.register mOpts 3
      { id := "db", name := "other", version := "2.0.0",
        dependencies := [], enabled := none }
      { setup := some true, activate := some true, deactivate := some true }
      dupRegState).2.plugins = dupRegState.plugins ∧
    (PluginManager.register mOpts 3
      { id := "db", name := "other", version := "2.0.0",
        dependencies := [], enabled := none }
      { setup := some true, activate := some true, deactivate := some true }
      dupRegState).2.trace = dupRegState.trace ∧
    (PluginManager.register mOpts 3
      { id := "db", name := "other", version := "2.0.0",
        dependencies := [], enabled := none }
      { setup := some true, activate := some true, deactivate := some true }
      dupRegState).2.now = dupRegState.now :=
  register_idempotent mOpts 3
    { id := "db", name := "other", version := "2.0.0",
      dependencies := [], enabled := none }
    { setup := some true, activate := some true, deactivate := some true }
    dupRegState (mActivePlugin "db" []) rfl

/-- Claim C7 (amended/corrected): `register` performs no id validation:
metadata with the empty id `""` is registered like any other id — a
record keyed `""` is added to the registry and returned; the code defines
no `InvalidPluginIdError` and rejects nothing. -/
theorem register_empty_id_accepted (opts : MOptions) (fuel : Nat)
    (meta : PluginMeta) (impl : PluginImpl) (s : MState)
    (hid : meta.id = "")
    (hnone : lookupReg s.plugins "" = none) :
    ∃ rec, (PluginManager.register opts fuel meta impl s).1 = some rec ∧
      ∃ rec', lookupReg (PluginManager.register opts fuel meta impl s).2.plugins ""
        = some rec' := by
  have hnone' : lookupReg s.plugins meta.id = none := by
    rw [hid]
    exact hnone
  rw [show ("" : String) = meta.id from hid.symm]
  exact PluginManager.register_new hnone'

/-- Metadata with an empty id are not rejected (cf. claim C7). -/
def emptyMeta : PluginMeta :=
  { id := "", name := "", version := "1.0.0", dependencies := [], enabled := none }

/-- A no-op implementation. -/
def emptyImpl : PluginImpl := { setup := none, activate := none, deactivate := none }

/-- Witness for claim C7 (amended) at the concrete empty-id metadata. -/
theorem register_empty_id_accepted_witness :
    ∃ rec, (PluginManager.register mOpts 3 emptyMeta emptyImpl (mState [])).1
        = some rec ∧
      ∃ rec', lookupReg
        (PluginManager.register mOpts 3 emptyMeta emptyImpl (mState [])).2.plugins ""
        = some rec' :=
  register_empty_id_accepted mOpts 3 emptyMeta emptyImpl (mState []) rfl rfl

/-- Counterexample to claim C7 as stated: registering metadata whose id is
the empty string is not rejected with an `InvalidPluginIdError` (no such
error exists in the code); a record for the invalid id IS added to the
registry and returned. -/
theorem register_empty_id_counterexample :
    ∃ rec, (PluginManager.register mOpts 3 emptyMeta emptyImpl (mState [])).1
        = some rec ∧
      lookupReg (PluginManager.register mOpts 3 emptyMeta emptyImpl
        (mState [])).2.plugins "" = some rec := by
  exact ⟨_, rfl, rfl⟩
